import Mathlib

/-!
Shallow embedding of `swagger2locustio`, a generator that turns a parsed
swagger/OpenAPI description into a locust load-test script.  The embedding
follows `swagger2locustio/generators/base_generator.py`: Python dicts that
are iterated in insertion order become association lists, Python exceptions
become `Except`, and the mutable instance state `vars_without_values`
together with the warning log is threaded explicitly.
-/

set_option maxHeartbeats 1000000

namespace Swagger2Locust

/-- Python runtime values that can appear as a parameter default.  Only the
truthiness and the `repr` of the value matter to the generator. -/
inductive PyVal where
  | pynone
  | pyint (n : Int)
  | pystr (s : String)
  | pybool (b : Bool)
  deriving Repr, DecidableEq

/-- Python truthiness of a value (`if not val:` in the source). -/
def PyVal.truthy : PyVal → Bool
  | .pynone => false
  | .pyint n => n != 0
  | .pystr s => s != ""
  | .pybool b => b

/-- Python `repr` of a value, used when a default is rendered as a literal. -/
def pyRepr : PyVal → String
  | .pynone => "None"
  | .pyint n => toString n
  | .pystr s => "\x27" ++ s ++ "\x27"
  | .pybool b => if b then "True" else "False"

/-- One parameter configuration dict: the `name`, `in`, `required` and
`default` keys read by the generator.  A missing `in` key is `none`. -/
structure ParamConfig where
  name : String
  location : Option String
  required : Bool
  default : PyVal
  deriving Repr, DecidableEq

instance : Inhabited ParamConfig := ⟨⟨"", none, false, PyVal.pynone⟩⟩

/-- Python exceptions raised by the generator. -/
inductive PyError where
  | valueError (msg : String)
  | attributeError (msg : String)
  deriving Repr, DecidableEq

/-- One requiredness bucket: `{"required": [], "not_required": []}`. -/
structure Bucket where
  required : List ParamConfig
  not_required : List ParamConfig
  deriving Repr, DecidableEq

def emptyBucket : Bucket := { required := [], not_required := [] }

/-- The four per-location buckets returned by `_extract_params`. -/
structure ExtractedParams where
  path_params : Bucket
  query_params : Bucket
  header_params : Bucket
  cookie_params : Bucket
  deriving Repr, DecidableEq

def emptyExtracted : ExtractedParams :=
  ⟨emptyBucket, emptyBucket, emptyBucket, emptyBucket⟩

/-- Python `target_params[required_type].append(param_config)`. -/
def bucketInsert (b : Bucket) (required : Bool) (cfg : ParamConfig) : Bucket :=
  if required then { b with required := b.required ++ [cfg] }
  else { b with not_required := b.not_required ++ [cfg] }

/-- Render an optional location the way a Python f-string renders it. -/
def showLoc : Option String → String
  | some l => l
  | none => "None"

/-- The strict-level rule of `_extract_params` applied to the already-selected
`target_params` bucket: append, silently skip, or raise `ValueError`. -/
def strictAppend (strict_level : Nat) (param locName : String)
    (param_config : ParamConfig) (b : Bucket) : Except PyError Bucket :=
  let required := param_config.required
  let default_val := param_config.default
  if strict_level == 0 then
    Except.ok (bucketInsert b required param_config)
  else if strict_level == 1 && (default_val.truthy || (!default_val.truthy && required)) then
    Except.ok (bucketInsert b required param_config)
  else if strict_level == 2 then
    if default_val.truthy then
      Except.ok (bucketInsert b required param_config)
    else
      Except.error (PyError.valueError
        ("No default value found for required " ++ locName ++ " param " ++ param))
  else
    Except.ok b

/-- One iteration of the `for param, param_config in params.items()` loop of
`BaseGenerator._extract_params`: dispatch on the `in` value to select the
target bucket, then apply the strict-level rule, possibly raising
`ValueError`. -/
def extractParamsStep (strict_level : Nat) (acc : ExtractedParams)
    (kv : String × ParamConfig) : Except PyError ExtractedParams :=
  match kv.2.location with
  | some l =>
      if l == "query" then
        match strictAppend strict_level kv.1 "query" kv.2 acc.query_params with
        | Except.ok b => Except.ok { acc with query_params := b }
        | Except.error e => Except.error e
      else if l == "path" then
        match strictAppend strict_level kv.1 "path" kv.2 acc.path_params with
        | Except.ok b => Except.ok { acc with path_params := b }
        | Except.error e => Except.error e
      else if l == "header" then
        match strictAppend strict_level kv.1 "header" kv.2 acc.header_params with
        | Except.ok b => Except.ok { acc with header_params := b }
        | Except.error e => Except.error e
      else if l == "cookie" then
        match strictAppend strict_level kv.1 "cookie" kv.2 acc.cookie_params with
        | Except.ok b => Except.ok { acc with cookie_params := b }
        | Except.error e => Except.error e
      else
        Except.error (PyError.valueError
          ("Not valid " ++ kv.1 ++ " `in` value: " ++ l))
  | none =>
      Except.error (PyError.valueError
        ("Not valid " ++ kv.1 ++ " `in` value: None"))

/-- The extraction loop over the parameter items. -/
def extractParamsLoop (strict_level : Nat) :
    List (String × ParamConfig) → ExtractedParams → Except PyError ExtractedParams
  | [], acc => Except.ok acc
  | kv :: rest, acc =>
      match extractParamsStep strict_level acc kv with
      | Except.ok acc2 => extractParamsLoop strict_level rest acc2
      | Except.error e => Except.error e

/-- Embeds `BaseGenerator._extract_params`. -/
def extract_params (strict_level : Nat) (params : List (String × ParamConfig)) :
    Except PyError ExtractedParams :=
  extractParamsLoop strict_level params emptyExtracted

/-- Python `itertools.combinations l k`: all length-`k` sublists of `l`, in the
lexicographic order (over positions in `l`) that Python yields them. -/
def combinations : Nat → List α → List (List α)
  | 0, _ => [[]]
  | _ + 1, [] => []
  | k + 1, x :: xs => (combinations k xs).map (fun c => x :: c) ++ combinations (k + 1) xs

/-- The body of `BaseGenerator._create_params_combinations`, generalized over
the element type: required list plus every subset of the optional list,
enumerated by increasing subset size. -/
def createCombos (required not_required : List α) : List (List α) :=
  (List.range (not_required.length + 1)).flatMap
    (fun combination_count =>
      (combinations combination_count not_required).map (fun c => required ++ c))

/-- Embeds `BaseGenerator._create_params_combinations`. -/
def create_params_combinations (params : Bucket) : List (List ParamConfig) :=
  createCombos params.required params.not_required

/-- The four per-location combination lists built by `generate_params`. -/
structure ParamsCombinations where
  path_params : List (List ParamConfig)
  query_params : List (List ParamConfig)
  header_params : List (List ParamConfig)
  cookie_params : List (List ParamConfig)
  deriving Repr, DecidableEq

/-- Embeds `BaseGenerator.generate_params`. -/
def generate_params (strict_level : Nat) (params : List (String × ParamConfig)) :
    Except PyError ParamsCombinations :=
  match extract_params strict_level params with
  | Except.error e => Except.error e
  | Except.ok e =>
      Except.ok
        { path_params := create_params_combinations e.path_params
          query_params := create_params_combinations e.query_params
          header_params := create_params_combinations e.header_params
          cookie_params := create_params_combinations e.cookie_params }

/-- Python dict update `d[k] = v`: overwrite in place if the key exists
(keeping its original position), otherwise append at the end. -/
def dictSet (d : List (String × ParamConfig)) (k : String) (v : ParamConfig) :
    List (String × ParamConfig) :=
  if d.any (fun p => p.1 == k) then
    d.map (fun p => if p.1 == k then (k, v) else p)
  else
    d ++ [(k, v)]

/-- Modelled from the spec: the repository module
`swagger2locustio/templates/locustfile_templates.py` is not under `src/`.
`PATH_PARAM_PAIR_TEMPLATE` renders one ordered key/value pair inlined into the
request path substitution syntax. -/
def PATH_PARAM_PAIR_TEMPLATE_render (key val : String) : String :=
  key ++ "=" ++ val

/-- Modelled from the spec: `DICT_PARAM_PAIR_TEMPLATE` (from the missing
templates module) renders one entry of a key-to-value mapping literal. -/
def DICT_PARAM_PAIR_TEMPLATE_render (key val : String) : String :=
  "\x22" ++ key ++ "\x22: " ++ val

/-- The pair template chosen inside the `_format_params` loop. -/
def renderPair (param_type key val : String) : String :=
  if param_type == "path" then PATH_PARAM_PAIR_TEMPLATE_render key val
  else DICT_PARAM_PAIR_TEMPLATE_render key val

/-- The `for param in raw_params` loop of `BaseGenerator._format_params`:
returns the rendered pair list and the updated `vars_without_values` table. -/
def formatPairs (test_count : Nat) (param_type : String) :
    List ParamConfig → List (String × ParamConfig) →
    List String × List (String × ParamConfig)
  | [], vars => ([], vars)
  | param :: rest, vars =>
      if !param.default.truthy then
        let val := param.name ++ "_test_" ++ toString test_count
        let vars2 := dictSet vars val param
        let r := formatPairs test_count param_type rest vars2
        (renderPair param_type param.name val :: r.1, r.2)
      else
        let r := formatPairs test_count param_type rest vars
        (renderPair param_type param.name (pyRepr param.default) :: r.1, r.2)

/-- Result of `_format_params`: the formatted block and the variable table. -/
structure FormatResult where
  text : String
  vars : List (String × ParamConfig)
  deriving Repr, DecidableEq

/-- Embeds `BaseGenerator._format_params`. -/
def format_params (raw_params : List ParamConfig) (test_count : Nat)
    (param_type : String) (vars : List (String × ParamConfig)) : FormatResult :=
  let r := formatPairs test_count param_type raw_params vars
  let formatted :=
    if param_type == "path" then
      if r.1.isEmpty then "" else ", " ++ String.intercalate ", " r.1
    else
      if r.1.isEmpty then "\x7b\x7d" else "\x7b" ++ String.intercalate ", " r.1 ++ "\x7d"
  { text := formatted, vars := r.2 }

/-- Modelled from the spec: `FUNC_TEMPLATE` (from the missing templates
module) renders one test-function definition from its name, HTTP method,
path and the four formatted parameter blocks. -/
def FUNC_TEMPLATE_render (func_name method path path_params query_params
    header_params cookie_params : String) : String :=
  "def " ++ func_name ++ "(self): " ++ method ++ " " ++ path ++ path_params ++
    " params=" ++ query_params ++ " headers=" ++ header_params ++
    " cookies=" ++ cookie_params ++ "\n"

/-- The `params` mapping of one operation (`method_data.get("params", {})`). -/
structure MethodData where
  params : List (String × ParamConfig)
  deriving Repr, DecidableEq

/-- One tuple of the four nested loops of `generate_test_cases`. -/
def crossProduct (pc : ParamsCombinations) :
    List (List ParamConfig × List ParamConfig × List ParamConfig × List ParamConfig) :=
  pc.path_params.flatMap (fun pp =>
    pc.query_params.flatMap (fun qp =>
      pc.header_params.flatMap (fun hp =>
        pc.cookie_params.map (fun cp => (pp, qp, hp, cp)))))

/-- The four nested `for` loops of `generate_test_cases` for one operation:
renders one function per tuple, incrementing `case` each time and threading
`vars_without_values` through the four `_format_params` calls. -/
def emitCasesLoop (method path : String) (test_count : Nat) :
    List (List ParamConfig × List ParamConfig × List ParamConfig × List ParamConfig) →
    Nat → List (String × ParamConfig) → List String × List (String × ParamConfig)
  | [], _, vars => ([], vars)
  | (pp, qp, hp, cp) :: rest, caseIdx, vars =>
      let f1 := format_params pp test_count "path" vars
      let f2 := format_params qp test_count "query" f1.vars
      let f3 := format_params hp test_count "header" f2.vars
      let f4 := format_params cp test_count "cookie" f3.vars
      let fn := FUNC_TEMPLATE_render
          ("test_" ++ toString test_count ++ "_case_" ++ toString caseIdx)
          method path f1.text f2.text f3.text f4.text
      let r := emitCasesLoop method path test_count rest (caseIdx + 1) f4.vars
      (fn :: r.1, r.2)

/-- State threaded through `generate_test_cases`: the local `test_count`,
the instance table `vars_without_values` and the warning log. -/
structure GenSt where
  test_count : Nat
  vars : List (String × ParamConfig)
  logs : List PyError
  deriving Repr, DecidableEq

/-- The `for method, method_data in methods_data.items()` loop: on an
extraction `ValueError` the warning is logged and the operation skipped
(without consuming a `test_count`); otherwise its cases are emitted and
`test_count` is incremented. -/
def methodsLoop (strict_level : Nat) (path : String) :
    List (String × MethodData) → GenSt → List String × GenSt
  | [], st => ([], st)
  | (method, md) :: rest, st =>
      match generate_params strict_level md.params with
      | Except.error e =>
          methodsLoop strict_level path rest { st with logs := st.logs ++ [e] }
      | Except.ok pc =>
          let em := emitCasesLoop method path st.test_count (crossProduct pc) 0 st.vars
          let r := methodsLoop strict_level path rest
            { st with test_count := st.test_count + 1, vars := em.2 }
          (em.1 ++ r.1, r.2)

/-- The `for path, methods_data in paths_data.items()` loop. -/
def pathsLoop (strict_level : Nat) :
    List (String × List (String × MethodData)) → GenSt → List String × GenSt
  | [], st => ([], st)
  | (path, methods) :: rest, st =>
      let m := methodsLoop strict_level path methods st
      let r := pathsLoop strict_level rest m.2
      (m.1 ++ r.1, r.2)

/-- Embeds `BaseGenerator.generate_test_cases`: `test_count` starts at 0; returns
the joined function text plus the updated instance/log state. -/
def generate_test_cases (strict_level : Nat)
    (paths_data : List (String × List (String × MethodData)))
    (vars : List (String × ParamConfig)) (logs : List PyError) :
    String × List (String × ParamConfig) × List PyError :=
  let r := pathsLoop strict_level paths_data { test_count := 0, vars := vars, logs := logs }
  (String.join r.1, r.2.vars, r.2.logs)

/-- One security scheme configuration dict (`in` and `name` keys). -/
structure SecurityConfig where
  location : Option String
  name : Option String
  deriving Repr, DecidableEq

/-- Python `repr` of a security config, carried by `ValueError(security_config)`. -/
def reprSecurityConfig (c : SecurityConfig) : String :=
  "\x7b\x27in\x27: " ++
    (match c.location with
     | some l => pyRepr (PyVal.pystr l)
     | none => "None") ++
    ", \x27name\x27: " ++
    (match c.name with
     | some n => pyRepr (PyVal.pystr n)
     | none => "None") ++ "\x7d"

/-- Modelled from the spec: `AUTH_BASIC_TEMPLATE` (from the missing templates
module) is the fixed basic-authentication setup fragment. -/
def AUTH_BASIC_TEMPLATE : String :=
  "self.auth = (USER, PASSWORD)\n"

/-- Modelled from the spec: `AUTH_KEY_HEADER_TEMPLATE` (from the missing
templates module) is the header-injection fragment parameterized by the
header name. -/
def AUTH_KEY_HEADER_TEMPLATE_render (name : String) : String :=
  "self.headers[" ++ "\x22" ++ name ++ "\x22" ++ "] = API_KEY\n"

/-- Truthiness of `security_config.get("name")`. -/
def optStrTruthy : Option String → Bool
  | some s => s != ""
  | none => false

/-- The loop of `BaseGenerator.generate_security_cases`, producing the list
appended to `security_cases`.  Scheme types other than `BasicAuth` and
`apiKey` fall through the `if`/`elif` chain without effect.  For `apiKey`,
a missing `in` key makes `location.lower()` raise `AttributeError`; a
non-header location or falsy name raises `ValueError(security_config)`. -/
def securityCasesList : List (String × SecurityConfig) → Except PyError (List String)
  | [] => Except.ok []
  | (security_type, security_config) :: rest =>
      if security_type == "BasicAuth" then
        match securityCasesList rest with
        | Except.error e => Except.error e
        | Except.ok l => Except.ok (AUTH_BASIC_TEMPLATE :: l)
      else if security_type == "apiKey" then
        match security_config.location with
        | none =>
            Except.error (PyError.attributeError
              "NoneType object has no attribute lower")
        | some location =>
            if location.toLower == "header" && optStrTruthy security_config.name then
              match securityCasesList rest with
              | Except.error e => Except.error e
              | Except.ok l =>
                  Except.ok (AUTH_KEY_HEADER_TEMPLATE_render
                    (security_config.name.getD "") :: l)
            else
              Except.error (PyError.valueError (reprSecurityConfig security_config))
      else
        securityCasesList rest

/-- Embeds `BaseGenerator.generate_security_cases`: `"".join(security_cases)`. -/
def generate_security_cases (security_data : List (String × SecurityConfig)) :
    Except PyError String :=
  match securityCasesList security_data with
  | Except.error e => Except.error e
  | Except.ok l => Except.ok (String.join l)

/-- Python `repr` of a parameter config dict (the placeholder metadata). -/
def reprOfParamConfig (p : ParamConfig) : String :=
  "\x7b\x27name\x27: " ++ pyRepr (PyVal.pystr p.name) ++
    ", \x27in\x27: " ++ showLoc p.location ++
    ", \x27required\x27: " ++ (if p.required then "True" else "False") ++
    ", \x27default\x27: " ++ pyRepr p.default ++ "\x7d"

/-- The declaration lines built by `generate_code_from_template`:
`f'{var} = "#"  # {var_data}'` for each registered placeholder. -/
def varLines (vars : List (String × ParamConfig)) : List String :=
  vars.map (fun kv => kv.1 ++ " = \x22#\x22  # " ++ reprOfParamConfig kv.2)

/-- Modelled from the spec: `FILE_TEMPLATE` (from the missing templates
module) assembles the final script from the placeholder declarations, the
concatenated test functions, the concatenated security fragments (absent
when no security data exists) and the target host. -/
def FILE_TEMPLATE_render (required_vars test_cases : String)
    (security_cases : Option String) (host : String) : String :=
  "host = " ++ "\x22" ++ host ++ "\x22" ++ "\n" ++ required_vars ++ "\n" ++
    (match security_cases with
     | some s => s
     | none => "") ++ test_cases

/-- Embeds `BaseGenerator.generate_code_from_template`. -/
def generate_code_from_template (test_cases : String)
    (security_cases : Option String) (host : String)
    (vars : List (String × ParamConfig)) : String :=
  FILE_TEMPLATE_render (String.intercalate "\n" (varLines vars))
    test_cases security_cases host

/-- The normalized specification object consumed by `generate_locustfile`. -/
structure SwaggerData where
  paths : List (String × List (String × MethodData))
  security : List (String × SecurityConfig)
  host : String
  deriving Repr, DecidableEq

/-- Embeds `BaseGenerator.generate_locustfile`: generates the test cases, then the
security cases (only when the security mapping is truthy, and any error
there is not caught and aborts the run), then the final script.  Returns the
script together with the final instance/log state. -/
def generate_locustfile (strict_level : Nat) (swagger_data : SwaggerData)
    (vars : List (String × ParamConfig)) (logs : List PyError) :
    Except PyError (String × List (String × ParamConfig) × List PyError) :=
  let t := generate_test_cases strict_level swagger_data.paths vars logs
  if swagger_data.security.isEmpty then
    Except.ok (generate_code_from_template t.1 none swagger_data.host t.2.1,
      t.2.1, t.2.2)
  else
    match generate_security_cases swagger_data.security with
    | Except.error e => Except.error e
    | Except.ok sc =>
        Except.ok (generate_code_from_template t.1 (some sc) swagger_data.host t.2.1,
          t.2.1, t.2.2)

/-! Helper views and mirror functions used only in the statements and proofs
below; they are not part of the embedded program. -/

/-- Truth of the location dispatch: the four recognized `in` values. -/
def validLoc (cfg : ParamConfig) : Bool :=
  cfg.location == some "query" || cfg.location == some "path" ||
    cfg.location == some "header" || cfg.location == some "cookie"

/-- The inclusion condition of the strict-level rule, per level. -/
def included (strict_level : Nat) (cfg : ParamConfig) : Bool :=
  strict_level == 0 ||
    (strict_level == 1 && (cfg.default.truthy || (!cfg.default.truthy && cfg.required))) ||
    (strict_level == 2 && cfg.default.truthy)

/-- Every parameter stored in the four buckets. -/
def allParams (e : ExtractedParams) : List ParamConfig :=
  e.path_params.required ++ e.path_params.not_required ++
    e.query_params.required ++ e.query_params.not_required ++
    e.header_params.required ++ e.header_params.not_required ++
    e.cookie_params.required ++ e.cookie_params.not_required

/-- Every parameter stored on the `required` side of a bucket. -/
def requiredSide (e : ExtractedParams) : List ParamConfig :=
  e.path_params.required ++ e.query_params.required ++
    e.header_params.required ++ e.cookie_params.required

/-- Every parameter stored on the `not_required` side of a bucket. -/
def optionalSide (e : ExtractedParams) : List ParamConfig :=
  e.path_params.not_required ++ e.query_params.not_required ++
    e.header_params.not_required ++ e.cookie_params.not_required

/-- Key presence test used by the dict model. -/
def hasKey (d : List (String × ParamConfig)) (k : String) : Bool :=
  d.any (fun p => p.1 == k)

/-- Lookup in the dict model (first occurrence). -/
def lookupKey : List (String × ParamConfig) → String → Option ParamConfig
  | [], _ => none
  | (k0, v) :: r, k => if k0 == k then some v else lookupKey r k

/-- The keys of the dict model, in order. -/
def keysOf (d : List (String × ParamConfig)) : List String :=
  d.map (fun kv => kv.1)

/-- Iterated dict update. -/
def dictSetAll (d : List (String × ParamConfig)) :
    List (String × ParamConfig) → List (String × ParamConfig)
  | [] => d
  | (k, v) :: rest => dictSetAll (dictSet d k v) rest

/-- Value of the last update with the given key in an update sequence. -/
def lookupLast : List (String × ParamConfig) → String → Option ParamConfig
  | [], _ => none
  | (k0, v) :: r, k =>
      match lookupLast r k with
      | some w => some w
      | none => if k0 == k then some v else none

/-- The placeholder registrations performed by one `_format_params` call, in
order: one entry per parameter whose default is falsy. -/
def pairInsertions (test_count : Nat) : List ParamConfig → List (String × ParamConfig)
  | [] => []
  | p :: rest =>
      if !p.default.truthy then
        (p.name ++ "_test_" ++ toString test_count, p) :: pairInsertions test_count rest
      else
        pairInsertions test_count rest

/-- The placeholder registrations performed for one cross-product tuple list. -/
def tupleInsertions (test_count : Nat) :
    List (List ParamConfig × List ParamConfig × List ParamConfig × List ParamConfig) →
    List (String × ParamConfig)
  | [] => []
  | (pp, qp, hp, cp) :: rest =>
      pairInsertions test_count pp ++ pairInsertions test_count qp ++
        pairInsertions test_count hp ++ pairInsertions test_count cp ++
        tupleInsertions test_count rest

/-- Mirror of the function list emitted by `emitCasesLoop`, independent of
the variable table (the rendered text never reads it). -/
def emitFuncs (method path : String) (test_count : Nat) :
    List (List ParamConfig × List ParamConfig × List ParamConfig × List ParamConfig) →
    Nat → List String
  | [], _ => []
  | (pp, qp, hp, cp) :: rest, caseIdx =>
      FUNC_TEMPLATE_render
        ("test_" ++ toString test_count ++ "_case_" ++ toString caseIdx)
        method path
        (format_params pp test_count "path" []).text
        (format_params qp test_count "query" []).text
        (format_params hp test_count "header" []).text
        (format_params cp test_count "cookie" []).text ::
        emitFuncs method path test_count rest (caseIdx + 1)

/-- Mirror of the function list emitted by `methodsLoop`, parameterized only
by the incoming `test_count` (the emitted text does not read the variable
table). -/
def methodsFuncs (strict_level : Nat) (path : String) :
    List (String × MethodData) → Nat → List String
  | [], _ => []
  | (method, md) :: rest, n =>
      match generate_params strict_level md.params with
      | Except.error _ => methodsFuncs strict_level path rest n
      | Except.ok pc =>
          emitFuncs method path n (crossProduct pc) 0 ++
            methodsFuncs strict_level path rest (n + 1)

/-- Number of operations whose extraction succeeds (each consumes one
`test_count`). -/
def methodsCount (strict_level : Nat) : List (String × MethodData) → Nat
  | [] => 0
  | (_, md) :: rest =>
      match generate_params strict_level md.params with
      | Except.error _ => methodsCount strict_level rest
      | Except.ok _ => methodsCount strict_level rest + 1

/-- The warnings logged by `methodsLoop`, in order. -/
def methodsWarnings (strict_level : Nat) : List (String × MethodData) → List PyError
  | [] => []
  | (_, md) :: rest =>
      match generate_params strict_level md.params with
      | Except.error e => e :: methodsWarnings strict_level rest
      | Except.ok _ => methodsWarnings strict_level rest

/-- The placeholder registrations performed by `methodsLoop`, in order. -/
def methodsIns (strict_level : Nat) :
    List (String × MethodData) → Nat → List (String × ParamConfig)
  | [], _ => []
  | (_, md) :: rest, n =>
      match generate_params strict_level md.params with
      | Except.error _ => methodsIns strict_level rest n
      | Except.ok pc =>
          tupleInsertions n (crossProduct pc) ++ methodsIns strict_level rest (n + 1)

/-- Mirror of the function list emitted by `pathsLoop`. -/
def pathsFuncs (strict_level : Nat) :
    List (String × List (String × MethodData)) → Nat → List String
  | [], _ => []
  | (path, ms) :: rest, n =>
      methodsFuncs strict_level path ms n ++
        pathsFuncs strict_level rest (n + methodsCount strict_level ms)

/-- The warnings logged by `pathsLoop`, in order. -/
def pathsWarnings (strict_level : Nat) :
    List (String × List (String × MethodData)) → List PyError
  | [] => []
  | (_, ms) :: rest => methodsWarnings strict_level ms ++ pathsWarnings strict_level rest

/-- The placeholder registrations performed by `pathsLoop`, in order. -/
def pathsIns (strict_level : Nat) :
    List (String × List (String × MethodData)) → Nat → List (String × ParamConfig)
  | [], _ => []
  | (_, ms) :: rest, n =>
      methodsIns strict_level ms n ++
        pathsIns strict_level rest (n + methodsCount strict_level ms)

/-- Number of sequence numbers consumed by `pathsLoop`. -/
def pathsCount (strict_level : Nat) :
    List (String × List (String × MethodData)) → Nat
  | [] => 0
  | (_, ms) :: rest => methodsCount strict_level ms + pathsCount strict_level rest

/-- Left-to-right cartesian product of two lists (proof helper used to
analyze the nested loops of `generate_test_cases`). -/
def prodList (l1 : List α) (l2 : List β) : List (α × β) :=
  l1.flatMap (fun a => l2.map (fun b => (a, b)))

/-- Concrete combination lists (1 path × 2 query × 1 header × 1 cookie)
used by the C4 witness. -/
def c4pc : ParamsCombinations :=
  { path_params := [[]],
    query_params := [[], [⟨"q", some "query", false, PyVal.pynone⟩]],
    header_params := [[]],
    cookie_params := [[]] }

/-! Lemmas about the combination enumerator. -/

theorem combinations_length (k : Nat) (l : List α) :
    (combinations k l).length = l.length.choose k := by
  induction l generalizing k with
  | nil =>
      cases k with
      | zero => simp [combinations]
      | succ k => simp [combinations]
  | cons x xs ih =>
      cases k with
      | zero => simp [combinations]
      | succ k =>
          simp [combinations, ih, Nat.choose_succ_succ]

theorem mem_combinations {k : Nat} {l c : List α} :
    c ∈ combinations k l ↔ c.Sublist l ∧ c.length = k := by
  induction l generalizing k c with
  | nil =>
      cases k with
      | zero =>
          simp only [combinations, List.mem_singleton]
          constructor
          · rintro rfl
            exact ⟨List.nil_sublist _, rfl⟩
          · rintro ⟨_, hl⟩
            exact List.length_eq_zero.mp hl
      | succ k =>
          simp only [combinations, List.not_mem_nil, false_iff, not_and]
          intro hs
          rcases List.sublist_nil.mp hs with rfl
          simp
  | cons x xs ih =>
      cases k with
      | zero =>
          simp only [combinations, List.mem_singleton]
          constructor
          · rintro rfl
            exact ⟨List.nil_sublist _, rfl⟩
          · rintro ⟨_, hl⟩
            exact List.length_eq_zero.mp hl
      | succ k =>
          simp only [combinations, List.mem_append, List.mem_map]
          constructor
          · rintro (⟨c2, hc2, rfl⟩ | h)
            · rcases ih.mp hc2 with ⟨hs, hl⟩
              exact ⟨List.Sublist.cons₂ x hs, by simp [hl]⟩
            · rcases ih.mp h with ⟨hs, hl⟩
              exact ⟨hs.cons x, hl⟩
          · rintro ⟨hs, hl⟩
            cases hs with
            | cons a hs2 =>
                exact Or.inr (ih.mpr ⟨hs2, hl⟩)
            | cons₂ a hs2 =>
                refine Or.inl ⟨_, ih.mpr ⟨hs2, ?_⟩, rfl⟩
                simpa using hl

theorem combinations_map (f : α → β) (k : Nat) (l : List α) :
    combinations k (l.map f) = (combinations k l).map (List.map f) := by
  induction l generalizing k with
  | nil => cases k <;> simp [combinations]
  | cons x xs ih =>
      cases k with
      | zero => simp [combinations]
      | succ k =>
          simp [combinations, ih, List.map_map, Function.comp]

theorem combinations_pairwise_lex {r : α → α → Prop} {l : List α}
    (hl : l.Pairwise r) (k : Nat) :
    (combinations k l).Pairwise (List.Lex r) := by
  induction l generalizing k with
  | nil => cases k <;> simp [combinations]
  | cons x xs ih =>
      rcases List.pairwise_cons.mp hl with ⟨hx, hxs⟩
      cases k with
      | zero => simp [combinations]
      | succ k =>
          rw [combinations, List.pairwise_append]
          refine ⟨?_, ih hxs (k + 1), ?_⟩
          · rw [List.pairwise_map]
            exact (ih hxs k).imp (fun h => List.Lex.cons h)
          · intro a ha b hb
            rcases List.mem_map.mp ha with ⟨c, _, rfl⟩
            rcases mem_combinations.mp hb with ⟨hs, hblen⟩
            cases b with
            | nil =>
                simp only [List.length_nil] at hblen
                omega
            | cons y b2 =>
                have hy : y ∈ xs := hs.subset (List.mem_cons_self y b2)
                exact List.Lex.rel (hx y hy)

theorem map_getD_range (l : List α) (d : α) :
    (List.range l.length).map (fun i => l.getD i d) = l := by
  induction l with
  | nil => simp
  | cons x xs ih =>
      rw [List.length_cons, List.range_succ_eq_map, List.map_cons, List.map_map]
      simp only [Function.comp_def, List.getD_cons_zero, Nat.succ_eq_add_one,
        List.getD_cons_succ]
      rw [ih]

theorem list_sum_range (f : Nat → Nat) (n : Nat) :
    ((List.range n).map f).sum = ∑ i ∈ Finset.range n, f i := by
  induction n with
  | zero => simp
  | succ n ih =>
      rw [List.range_succ, List.map_append, List.sum_append, Finset.sum_range_succ, ih]
      simp

theorem createCombos_length (R O : List α) :
    (createCombos R O).length = 2 ^ O.length := by
  rw [createCombos, List.length_flatMap]
  have h1 : List.map (List.length ∘ fun combination_count =>
      (combinations combination_count O).map (fun c => R ++ c))
        (List.range (O.length + 1)) =
      List.map (fun k => O.length.choose k) (List.range (O.length + 1)) := by
    apply List.map_congr_left
    intro a _
    simp [combinations_length]
  rw [h1, list_sum_range, Nat.sum_range_choose]

theorem mem_createCombos {R O c : List α} :
    c ∈ createCombos R O ↔ ∃ s, s.Sublist O ∧ c = R ++ s := by
  rw [createCombos]
  simp only [List.mem_flatMap, List.mem_range, List.mem_map]
  constructor
  · rintro ⟨k, _, c2, hc2, rfl⟩
    rcases mem_combinations.mp hc2 with ⟨hs, _⟩
    exact ⟨c2, hs, rfl⟩
  · rintro ⟨s, hs, rfl⟩
    refine ⟨s.length, ?_, s, mem_combinations.mpr ⟨hs, rfl⟩, rfl⟩
    have := hs.length_le
    omega

theorem pairwise_of_forall_mem {r : α → α → Prop} {l : List α}
    (h : ∀ a ∈ l, ∀ b ∈ l, r a b) : l.Pairwise r := by
  induction l with
  | nil => exact List.Pairwise.nil
  | cons x xs ih =>
      refine List.Pairwise.cons (fun b hb => h x (by simp) b (by simp [hb])) (ih ?_)
      intro a ha b hb
      exact h a (by simp [ha]) b (by simp [hb])

theorem createCombos_pairwise_length (R O : List α) :
    (createCombos R O).Pairwise (fun c1 c2 => c1.length ≤ c2.length) := by
  have hlen : ∀ k : Nat, ∀ c ∈ (combinations k O).map (fun c => R ++ c),
      c.length = R.length + k := by
    intro k c hc
    rcases List.mem_map.mp hc with ⟨c2, hc2, rfl⟩
    rcases mem_combinations.mp hc2 with ⟨_, hl⟩
    simp [hl]
  rw [createCombos, List.flatMap_def, List.pairwise_flatten]
  constructor
  · intro l2 hl2
    rcases List.mem_map.mp hl2 with ⟨k, _, rfl⟩
    apply pairwise_of_forall_mem
    intro a ha b hb
    rw [hlen k a ha, hlen k b hb]
  · rw [List.pairwise_map]
    refine (List.pairwise_lt_range _).imp ?_
    intro k1 k2 hk a ha b hb
    rw [hlen k1 a ha, hlen k2 b hb]
    omega

/-- C3: for a bucket with required sequence R and optional sequence O of
length n, `_create_params_combinations` produces exactly `2 ^ n`
combinations; every combination is R concatenated with a sublist of O
(so it preserves O's relative order and contains all of R); every sublist
of O (including the empty one) is produced; combinations are enumerated by
nondecreasing size; and within one size the enumeration is lexicographic
over positions in O, witnessed by the index enumeration
`combinations k (List.range n)` being sorted in `List.Lex (· < ·)` and
mapping onto the actual combinations position by position. -/
theorem C3_combination_enumerator (b : Bucket) (d : ParamConfig) :
    (create_params_combinations b).length = 2 ^ b.not_required.length ∧
    (∀ c ∈ create_params_combinations b,
      ∃ s, s.Sublist b.not_required ∧ c = b.required ++ s) ∧
    (∀ s, s.Sublist b.not_required →
      b.required ++ s ∈ create_params_combinations b) ∧
    (create_params_combinations b).Pairwise (fun c1 c2 => c1.length ≤ c2.length) ∧
    (∀ k, (combinations k (List.range b.not_required.length)).Pairwise
      (List.Lex (· < ·))) ∧
    (∀ k, combinations k b.not_required =
      (combinations k (List.range b.not_required.length)).map
        (List.map (fun i => b.not_required.getD i d))) ∧
    (∀ c ∈ create_params_combinations b, ∀ p ∈ b.required, p ∈ c) := by
  refine ⟨createCombos_length _ _, ?_, ?_, createCombos_pairwise_length _ _, ?_, ?_, ?_⟩
  · intro c hc
    exact mem_createCombos.mp hc
  · intro s hs
    exact mem_createCombos.mpr ⟨s, hs, rfl⟩
  · intro k
    exact combinations_pairwise_lex (List.pairwise_lt_range _) k
  · intro k
    have h := combinations_map (fun i => b.not_required.getD i d) k
      (List.range b.not_required.length)
    rw [map_getD_range] at h
    exact h
  · intro c hc p hp
    rcases mem_createCombos.mp hc with ⟨s, _, rfl⟩
    exact List.mem_append.mpr (Or.inl hp)

/-- Witness for C3 at a concrete bucket with two optional parameters. -/
theorem C3_witness :
    (create_params_combinations
      { required := [{ name := "r", location := some "query", required := true,
                       default := PyVal.pyint 1 }],
        not_required := [{ name := "o1", location := some "query", required := false,
                           default := PyVal.pyint 2 },
                         { name := "o2", location := some "query", required := false,
                           default := PyVal.pyint 3 }] }).length = 4 := by
  have h := C3_combination_enumerator
    { required := [{ name := "r", location := some "query", required := true,
                     default := PyVal.pyint 1 }],
      not_required := [{ name := "o1", location := some "query", required := false,
                         default := PyVal.pyint 2 },
                       { name := "o2", location := some "query", required := false,
                         default := PyVal.pyint 3 }] } default
  simpa using h.1

/-! Lemmas about the nested case-assembly loops. -/

theorem mul_add_lt {a b A B : Nat} (ha : a < A) (hb : b < B) :
    a * B + b < A * B := by
  have h1 : a * B + b < (a + 1) * B := by
    rw [Nat.succ_mul]
    omega
  have h2 : (a + 1) * B ≤ A * B := Nat.mul_le_mul_right B (by omega)
  omega

theorem length_prodList (l1 : List α) (l2 : List β) :
    (prodList l1 l2).length = l1.length * l2.length := by
  induction l1 with
  | nil => simp [prodList]
  | cons x xs ih =>
      simp only [prodList, List.flatMap_cons, List.length_append,
        List.length_map, List.length_cons] at ih ⊢
      rw [ih, Nat.succ_mul, Nat.add_comm]

theorem getElem?_prodList (l1 : List α) (l2 : List β) (i j : Nat)
    (hj : j < l2.length) :
    (prodList l1 l2)[i * l2.length + j]? =
      Option.map (fun a => (a, l2.get ⟨j, hj⟩)) l1[i]? := by
  induction l1 generalizing i with
  | nil => simp [prodList]
  | cons x xs ih =>
      cases i with
      | zero =>
          rw [prodList, List.flatMap_cons]
          simp only [Nat.zero_mul, Nat.zero_add]
          rw [List.getElem?_append, if_pos (by simpa using hj)]
          simp [List.getElem?_map, List.getElem?_eq_getElem hj,
            List.get_eq_getElem]
      | succ i =>
          rw [prodList, List.flatMap_cons]
          have h1 : (List.map (fun b => (x, b)) l2).length ≤ (i + 1) * l2.length + j := by
            rw [List.length_map, Nat.succ_mul]
            omega
          rw [List.getElem?_append_right h1]
          have h2 : (i + 1) * l2.length + j - (List.map (fun b => (x, b)) l2).length =
              i * l2.length + j := by
            rw [List.length_map, Nat.succ_mul]
            omega
          rw [h2]
          rw [prodList] at ih
          rw [ih i]
          simp

theorem get_prodList (l1 : List α) (l2 : List β) (i j : Nat)
    (hi : i < l1.length) (hj : j < l2.length)
    (h : i * l2.length + j < (prodList l1 l2).length) :
    (prodList l1 l2).get ⟨i * l2.length + j, h⟩ =
      (l1.get ⟨i, hi⟩, l2.get ⟨j, hj⟩) := by
  have h2 := getElem?_prodList l1 l2 i j hj
  rw [List.getElem?_eq_getElem hi, List.getElem?_eq_getElem h] at h2
  simp only [Option.map_some'] at h2
  have h3 := Option.some_inj.mp h2
  simp only [List.get_eq_getElem]
  rw [h3]
  simp [List.get_eq_getElem]

theorem crossProduct_eq (pc : ParamsCombinations) :
    crossProduct pc =
      (prodList pc.path_params
        (prodList pc.query_params
          (prodList pc.header_params pc.cookie_params))).map
        (fun t => (t.1, t.2.1, t.2.2.1, t.2.2.2)) := by
  simp [crossProduct, prodList, List.map_flatMap, List.map_map,
    Function.comp_def]

theorem crossProduct_length (pc : ParamsCombinations) :
    (crossProduct pc).length =
      pc.path_params.length * pc.query_params.length *
        pc.header_params.length * pc.cookie_params.length := by
  rw [crossProduct_eq, List.length_map, length_prodList, length_prodList,
    length_prodList]
  ring

theorem crossProduct_getElem? (pc : ParamsCombinations) (ip iq ihh ic : Nat)
    (h1 : ip < pc.path_params.length) (h2 : iq < pc.query_params.length)
    (h3 : ihh < pc.header_params.length) (h4 : ic < pc.cookie_params.length) :
    (crossProduct pc)[((ip * pc.query_params.length + iq) *
        pc.header_params.length + ihh) * pc.cookie_params.length + ic]? =
      some (pc.path_params.get ⟨ip, h1⟩, pc.query_params.get ⟨iq, h2⟩,
        pc.header_params.get ⟨ihh, h3⟩, pc.cookie_params.get ⟨ic, h4⟩) := by
  have hV : ihh * pc.cookie_params.length + ic <
      (prodList pc.header_params pc.cookie_params).length := by
    rw [length_prodList pc.header_params pc.cookie_params]
    exact mul_add_lt h3 h4
  have hW : iq * (prodList pc.header_params pc.cookie_params).length +
      (ihh * pc.cookie_params.length + ic) <
      (prodList pc.query_params (prodList pc.header_params pc.cookie_params)).length := by
    rw [length_prodList pc.query_params (prodList pc.header_params pc.cookie_params)]
    exact mul_add_lt h2 hV
  have hidx : ((ip * pc.query_params.length + iq) * pc.header_params.length + ihh) *
      pc.cookie_params.length + ic =
      ip * (prodList pc.query_params
        (prodList pc.header_params pc.cookie_params)).length +
      (iq * (prodList pc.header_params pc.cookie_params).length +
        (ihh * pc.cookie_params.length + ic)) := by
    rw [length_prodList pc.query_params (prodList pc.header_params pc.cookie_params),
      length_prodList pc.header_params pc.cookie_params]
    ring
  rw [crossProduct_eq, List.getElem?_map, hidx,
    getElem?_prodList _ _ _ _ hW, List.getElem?_eq_getElem h1,
    get_prodList _ _ _ _ h2 hV, get_prodList _ _ _ _ h3 h4]
  simp

theorem emitCasesLoop_spec (method path : String) (n : Nat) :
    ∀ (tuples : List (List ParamConfig × List ParamConfig ×
        List ParamConfig × List ParamConfig))
      (caseIdx : Nat) (vars : List (String × ParamConfig)),
      (emitCasesLoop method path n tuples caseIdx vars).1.length = tuples.length ∧
      ∀ i, i < tuples.length →
        ∃ a b c d, (emitCasesLoop method path n tuples caseIdx vars).1[i]? =
          some (FUNC_TEMPLATE_render
            ("test_" ++ toString n ++ "_case_" ++ toString (caseIdx + i))
            method path a b c d) := by
  intro tuples
  induction tuples with
  | nil =>
      intro caseIdx vars
      refine ⟨rfl, ?_⟩
      intro i hi
      simp at hi
  | cons t rest ih =>
      obtain ⟨tp, tq, th2, tc⟩ := t
      intro caseIdx vars
      constructor
      · simp only [emitCasesLoop, List.length_cons]
        exact congrArg (· + 1) (ih (caseIdx + 1) _).1
      · intro i hi
        cases i with
        | zero =>
            simp only [emitCasesLoop, List.getElem?_cons_zero]
            exact ⟨_, _, _, _, rfl⟩
        | succ i =>
            have hi2 : i < rest.length := by
              simpa using hi
            have e : caseIdx + (i + 1) = caseIdx + 1 + i := by omega
            rw [e]
            simp only [emitCasesLoop]
            rw [List.getElem?_cons_succ]
            exact (ih (caseIdx + 1) _).2 i hi2

/-- C4: for one operation, the Case Assembler emits exactly one test case per
element of the cross product of the four per-location combination lists
(total = |path| × |query| × |header| × |cookie|); the per-case counter starts
at 0 and increments by one per emitted tuple, each emitted function being
named `test_<operationSeq>_case_<caseIdx>`; and the tuples are enumerated in
the nested order path → query → header → cookie (path varying slowest,
cookie fastest), as shown by the position formula of the cross product. -/
theorem C4_case_assembler (method path : String) (test_count : Nat)
    (pc : ParamsCombinations) (vars : List (String × ParamConfig)) :
    (emitCasesLoop method path test_count (crossProduct pc) 0 vars).1.length =
      pc.path_params.length * pc.query_params.length *
        pc.header_params.length * pc.cookie_params.length ∧
    (∀ i, i < (crossProduct pc).length →
      ∃ a b c d,
        (emitCasesLoop method path test_count (crossProduct pc) 0 vars).1[i]? =
          some (FUNC_TEMPLATE_render
            ("test_" ++ toString test_count ++ "_case_" ++ toString i)
            method path a b c d)) ∧
    (∀ ip iq ihh ic, ∀ (h1 : ip < pc.path_params.length)
      (h2 : iq < pc.query_params.length) (h3 : ihh < pc.header_params.length)
      (h4 : ic < pc.cookie_params.length),
      (crossProduct pc)[((ip * pc.query_params.length + iq) *
          pc.header_params.length + ihh) * pc.cookie_params.length + ic]? =
        some (pc.path_params.get ⟨ip, h1⟩, pc.query_params.get ⟨iq, h2⟩,
          pc.header_params.get ⟨ihh, h3⟩, pc.cookie_params.get ⟨ic, h4⟩)) := by
  refine ⟨?_, ?_, ?_⟩
  · rw [(emitCasesLoop_spec method path test_count (crossProduct pc) 0 vars).1,
      crossProduct_length]
  · intro i hi
    have h := (emitCasesLoop_spec method path test_count (crossProduct pc) 0 vars).2 i hi
    simpa using h
  · intro ip iq ihh ic h1 h2 h3 h4
    exact crossProduct_getElem? pc ip iq ihh ic h1 h2 h3 h4

/-- Witness for C4 at a concrete 1 × 2 × 1 × 1 cross product. -/
theorem C4_witness :
    (emitCasesLoop "get" "/x" 0 (crossProduct c4pc) 0 []).1.length = 2 ∧
    (crossProduct c4pc)[((0 * c4pc.query_params.length + 1) *
        c4pc.header_params.length + 0) * c4pc.cookie_params.length + 0]? =
      some ([], [⟨"q", some "query", false, PyVal.pynone⟩], [], []) := by
  have h := C4_case_assembler "get" "/x" 0 c4pc []
  refine ⟨?_, ?_⟩
  · rw [h.1]
    decide
  · rw [h.2.2 0 1 0 0 (by decide) (by decide) (by decide) (by decide)]
    decide

/-! Lemmas about parameter extraction under the strictness policy. -/

theorem strictAppend_eq (strict_level : Nat) (param locName : String)
    (cfg : ParamConfig) (b : Bucket) :
    strictAppend strict_level param locName cfg b =
      if included strict_level cfg then
        Except.ok (bucketInsert b cfg.required cfg)
      else if strict_level == 2 then
        Except.error (PyError.valueError
          ("No default value found for required " ++ locName ++ " param " ++ param))
      else
        Except.ok b := by
  by_cases h0 : strict_level = 0
  · subst h0
    simp [strictAppend, included]
  · by_cases h1 : strict_level = 1
    · subst h1
      by_cases hc : (cfg.default.truthy || (!cfg.default.truthy && cfg.required)) = true
      · simp [strictAppend, included, hc]
      · simp only [Bool.not_eq_true] at hc
        simp [strictAppend, included, hc]
    · by_cases h2 : strict_level = 2
      · subst h2
        by_cases ht : cfg.default.truthy = true
        · simp [strictAppend, included, ht]
        · simp only [Bool.not_eq_true] at ht
          simp [strictAppend, included, ht]
      · simp [strictAppend, included, h0, h1, h2]

theorem included_zero (cfg : ParamConfig) : included 0 cfg = true := by
  simp [included]

theorem included_one (cfg : ParamConfig) :
    included 1 cfg = (cfg.default.truthy || cfg.required) := by
  cases h : cfg.default.truthy <;> simp [included, h]

theorem included_two (cfg : ParamConfig) :
    included 2 cfg = cfg.default.truthy := by
  simp [included]

/-- Exhaustive behavior of one extraction step: invalid location raises
`ValueError`; a valid location either inserts the parameter (when the level
rule includes it), skips it silently (levels other than 2), or raises
`ValueError` (level 2 without default). -/
theorem step_cases (strict_level : Nat) (acc : ExtractedParams)
    (kv : String × ParamConfig) :
    (validLoc kv.2 = false ∧
      ∃ m, extractParamsStep strict_level acc kv =
        Except.error (PyError.valueError m)) ∨
    (validLoc kv.2 = true ∧ included strict_level kv.2 = true ∧
      ∃ acc2, extractParamsStep strict_level acc kv = Except.ok acc2 ∧
        (∀ p, p ∈ allParams acc2 ↔ p ∈ allParams acc ∨ p = kv.2) ∧
        (∀ p, p ∈ requiredSide acc2 ↔
          p ∈ requiredSide acc ∨ (kv.2.required = true ∧ p = kv.2)) ∧
        (∀ p, p ∈ optionalSide acc2 ↔
          p ∈ optionalSide acc ∨ (kv.2.required = false ∧ p = kv.2))) ∨
    (validLoc kv.2 = true ∧ included strict_level kv.2 = false ∧ strict_level ≠ 2 ∧
      extractParamsStep strict_level acc kv = Except.ok acc) ∨
    (validLoc kv.2 = true ∧ included strict_level kv.2 = false ∧ strict_level = 2 ∧
      ∃ m, extractParamsStep strict_level acc kv =
        Except.error (PyError.valueError m)) := by
  by_cases hv : validLoc kv.2 = true
  · have hv2 : kv.2.location = some "query" ∨ kv.2.location = some "path" ∨
        kv.2.location = some "header" ∨ kv.2.location = some "cookie" := by
      simpa [validLoc, or_assoc] using hv
    by_cases hinc : included strict_level kv.2 = true
    · refine Or.inr (Or.inl ⟨hv, hinc, ?_⟩)
      rcases hv2 with hloc | hloc | hloc | hloc
      · refine ⟨{ acc with query_params := bucketInsert acc.query_params kv.2.required kv.2 }, ?_, ?_, ?_, ?_⟩
        · simp [extractParamsStep, hloc, strictAppend_eq, hinc]
        · intro p
          by_cases hr : kv.2.required <;>
            simp [allParams, bucketInsert, hr] <;> tauto
        · intro p
          by_cases hr : kv.2.required <;>
            simp [requiredSide, bucketInsert, hr] <;> tauto
        · intro p
          by_cases hr : kv.2.required <;>
            simp [optionalSide, bucketInsert, hr] <;> tauto
      · refine ⟨{ acc with path_params := bucketInsert acc.path_params kv.2.required kv.2 }, ?_, ?_, ?_, ?_⟩
        · simp [extractParamsStep, hloc, strictAppend_eq, hinc]
        · intro p
          by_cases hr : kv.2.required <;>
            simp [allParams, bucketInsert, hr] <;> tauto
        · intro p
          by_cases hr : kv.2.required <;>
            simp [requiredSide, bucketInsert, hr] <;> tauto
        · intro p
          by_cases hr : kv.2.required <;>
            simp [optionalSide, bucketInsert, hr] <;> tauto
      · refine ⟨{ acc with header_params := bucketInsert acc.header_params kv.2.required kv.2 }, ?_, ?_, ?_, ?_⟩
        · simp [extractParamsStep, hloc, strictAppend_eq, hinc]
        · intro p
          by_cases hr : kv.2.required <;>
            simp [allParams, bucketInsert, hr] <;> tauto
        · intro p
          by_cases hr : kv.2.required <;>
            simp [requiredSide, bucketInsert, hr] <;> tauto
        · intro p
          by_cases hr : kv.2.required <;>
            simp [optionalSide, bucketInsert, hr] <;> tauto
      · refine ⟨{ acc with cookie_params := bucketInsert acc.cookie_params kv.2.required kv.2 }, ?_, ?_, ?_, ?_⟩
        · simp [extractParamsStep, hloc, strictAppend_eq, hinc]
        · intro p
          by_cases hr : kv.2.required <;>
            simp [allParams, bucketInsert, hr] <;> tauto
        · intro p
          by_cases hr : kv.2.required <;>
            simp [requiredSide, bucketInsert, hr] <;> tauto
        · intro p
          by_cases hr : kv.2.required <;>
            simp [optionalSide, bucketInsert, hr] <;> tauto
    · by_cases h2 : strict_level = 2
      · refine Or.inr (Or.inr (Or.inr ⟨hv, by simpa using hinc, h2, ?_⟩))
        subst h2
        rcases hv2 with hloc | hloc | hloc | hloc
        · exact ⟨"No default value found for required query param " ++ kv.1,
            by simp [extractParamsStep, hloc, strictAppend_eq, hinc]⟩
        · exact ⟨"No default value found for required path param " ++ kv.1,
            by simp [extractParamsStep, hloc, strictAppend_eq, hinc]⟩
        · exact ⟨"No default value found for required header param " ++ kv.1,
            by simp [extractParamsStep, hloc, strictAppend_eq, hinc]⟩
        · exact ⟨"No default value found for required cookie param " ++ kv.1,
            by simp [extractParamsStep, hloc, strictAppend_eq, hinc]⟩
      · refine Or.inr (Or.inr (Or.inl ⟨hv, by simpa using hinc, h2, ?_⟩))
        rcases hv2 with hloc | hloc | hloc | hloc <;>
          simp [extractParamsStep, hloc, strictAppend_eq, hinc, h2]
  · refine Or.inl ⟨by simpa using hv, ?_⟩
    rcases hloc : kv.2.location with _ | l
    · exact ⟨"Not valid " ++ kv.1 ++ " `in` value: None",
        by simp [extractParamsStep, hloc]⟩
    · have hne : ¬(l = "query") ∧ ¬(l = "path") ∧ ¬(l = "header") ∧ ¬(l = "cookie") := by
        simp [validLoc, hloc] at hv
        tauto
      exact ⟨"Not valid " ++ kv.1 ++ " `in` value: " ++ l,
        by simp [extractParamsStep, hloc, hne.1, hne.2.1, hne.2.2.1, hne.2.2.2]⟩

theorem loop_ok_spec (strict_level : Nat) :
    ∀ (params : List (String × ParamConfig)) (acc e2 : ExtractedParams),
      extractParamsLoop strict_level params acc = Except.ok e2 →
      (∀ p, p ∈ allParams e2 →
        p ∈ allParams acc ∨ ∃ kv ∈ params, p = kv.2 ∧ included strict_level kv.2 = true) ∧
      (∀ kv ∈ params, included strict_level kv.2 = true → kv.2 ∈ allParams e2) ∧
      (∀ p, p ∈ allParams acc → p ∈ allParams e2) ∧
      (∀ p, p ∈ requiredSide e2 → p ∈ requiredSide acc ∨ p.required = true) ∧
      (∀ p, p ∈ optionalSide e2 → p ∈ optionalSide acc ∨ p.required = false) := by
  intro params
  induction params with
  | nil =>
      intro acc e2 h
      rw [extractParamsLoop] at h
      cases h
      exact ⟨fun p hp => Or.inl hp, by simp, fun p hp => hp,
        fun p hp => Or.inl hp, fun p hp => Or.inl hp⟩
  | cons kv rest ih =>
      intro acc e2 h
      cases hstep : extractParamsStep strict_level acc kv with
      | error e =>
          rw [extractParamsLoop, hstep] at h
          cases h
      | ok acc1 =>
          rw [extractParamsLoop, hstep] at h
          have IH := ih acc1 e2 h
          rcases step_cases strict_level acc kv with
            ⟨_, m, hs⟩ | ⟨_, hinc, acc2, hs, hmem, hreq, hopt⟩ |
            ⟨_, hincF, _, hs⟩ | ⟨_, _, _, m, hs⟩
          · rw [hstep] at hs
            cases hs
          · rw [hstep] at hs
            have hacc : acc1 = acc2 := Except.ok.inj hs
            subst hacc
            refine ⟨?_, ?_, ?_, ?_, ?_⟩
            · intro p hp
              rcases IH.1 p hp with h1 | ⟨kv2, hkv2, h2⟩
              · rcases (hmem p).mp h1 with h3 | h3
                · exact Or.inl h3
                · exact Or.inr ⟨kv, List.mem_cons_self kv rest, h3, hinc⟩
              · exact Or.inr ⟨kv2, List.mem_cons_of_mem _ hkv2, h2⟩
            · intro kv2 hkv2 hinc2
              rcases List.mem_cons.mp hkv2 with heq | hkv2r
              · subst heq
                exact IH.2.2.1 kv2.2 ((hmem kv2.2).mpr (Or.inr rfl))
              · exact IH.2.1 kv2 hkv2r hinc2
            · intro p hp
              exact IH.2.2.1 p ((hmem p).mpr (Or.inl hp))
            · intro p hp
              rcases IH.2.2.2.1 p hp with h1 | h1
              · rcases (hreq p).mp h1 with h3 | ⟨h3, rfl⟩
                · exact Or.inl h3
                · exact Or.inr h3
              · exact Or.inr h1
            · intro p hp
              rcases IH.2.2.2.2 p hp with h1 | h1
              · rcases (hopt p).mp h1 with h3 | ⟨h3, rfl⟩
                · exact Or.inl h3
                · exact Or.inr h3
              · exact Or.inr h1
          · rw [hstep] at hs
            have hacc : acc1 = acc := Except.ok.inj hs
            subst hacc
            refine ⟨?_, ?_, IH.2.2.1, IH.2.2.2.1, IH.2.2.2.2⟩
            · intro p hp
              rcases IH.1 p hp with h1 | ⟨kv2, hkv2, h2⟩
              · exact Or.inl h1
              · exact Or.inr ⟨kv2, List.mem_cons_of_mem _ hkv2, h2⟩
            · intro kv2 hkv2 hinc2
              rcases List.mem_cons.mp hkv2 with heq | hkv2r
              · subst heq
                rw [hinc2] at hincF
                cases hincF
              · exact IH.2.1 kv2 hkv2r hinc2
          · rw [hstep] at hs
            cases hs

theorem loop_ok_of_ne_two (strict_level : Nat) (h2 : strict_level ≠ 2) :
    ∀ (params : List (String × ParamConfig)) (acc : ExtractedParams),
      (∀ kv ∈ params, validLoc kv.2 = true) →
      ∃ e2, extractParamsLoop strict_level params acc = Except.ok e2 := by
  intro params
  induction params with
  | nil =>
      intro acc _
      exact ⟨acc, rfl⟩
  | cons kv rest ih =>
      intro acc hv
      have hvkv : validLoc kv.2 = true := hv kv (List.mem_cons_self kv rest)
      have hvr : ∀ kv2 ∈ rest, validLoc kv2.2 = true :=
        fun kv2 h => hv kv2 (List.mem_cons_of_mem _ h)
      rcases step_cases strict_level acc kv with
        ⟨hbad, _⟩ | ⟨_, _, acc2, hs, _⟩ | ⟨_, _, _, hs⟩ | ⟨_, _, hlvl, _⟩
      · rw [hvkv] at hbad
        cases hbad
      · rcases ih acc2 hvr with ⟨e2, he2⟩
        exact ⟨e2, by rw [extractParamsLoop, hs]; exact he2⟩
      · rcases ih acc hvr with ⟨e2, he2⟩
        exact ⟨e2, by rw [extractParamsLoop, hs]; exact he2⟩
      · exact absurd hlvl h2

theorem loop_error_strict2 :
    ∀ (params : List (String × ParamConfig)) (acc : ExtractedParams)
      (k : String) (cfg : ParamConfig),
      (∀ kv ∈ params, validLoc kv.2 = true) → (k, cfg) ∈ params →
      cfg.default.truthy = false →
      ∃ m, extractParamsLoop 2 params acc = Except.error (PyError.valueError m) := by
  intro params
  induction params with
  | nil =>
      intro acc k cfg _ hmem _
      cases hmem
  | cons kv rest ih =>
      intro acc k cfg hv hmem hd
      have hvkv : validLoc kv.2 = true := hv kv (List.mem_cons_self kv rest)
      have hvr : ∀ kv2 ∈ rest, validLoc kv2.2 = true :=
        fun kv2 h => hv kv2 (List.mem_cons_of_mem _ h)
      rcases step_cases 2 acc kv with
        ⟨hbad, _⟩ | ⟨_, hinc, acc2, hs, _⟩ | ⟨_, _, hlvl, _⟩ | ⟨_, _, _, m, hs⟩
      · rw [hvkv] at hbad
        cases hbad
      · rcases List.mem_cons.mp hmem with heq | hmemr
        · have hkv2 : kv.2 = cfg := congrArg Prod.snd heq.symm
          rw [included_two, hkv2, hd] at hinc
          cases hinc
        · rcases ih acc2 k cfg hvr hmemr hd with ⟨m, hm⟩
          exact ⟨m, by rw [extractParamsLoop, hs]; exact hm⟩
      · exact absurd rfl hlvl
      · exact ⟨m, by rw [extractParamsLoop, hs]⟩

theorem loop_error_invalid (strict_level : Nat) :
    ∀ (params : List (String × ParamConfig)) (acc : ExtractedParams)
      (k : String) (cfg : ParamConfig),
      (k, cfg) ∈ params → validLoc cfg = false →
      ∃ e, extractParamsLoop strict_level params acc = Except.error e := by
  intro params
  induction params with
  | nil =>
      intro acc k cfg hmem _
      cases hmem
  | cons kv rest ih =>
      intro acc k cfg hmem hbad
      cases hstep : extractParamsStep strict_level acc kv with
      | error e =>
          exact ⟨e, by rw [extractParamsLoop, hstep]⟩
      | ok acc1 =>
          rcases List.mem_cons.mp hmem with heq | hmemr
          · have hkv2 : kv.2 = cfg := congrArg Prod.snd heq.symm
            rcases step_cases strict_level acc kv with
              ⟨_, m, hs⟩ | ⟨hvv, _⟩ | ⟨hvv, _⟩ | ⟨hvv, _⟩
            · rw [hstep] at hs
              cases hs
            all_goals rw [hkv2, hbad] at hvv; cases hvv
          · rcases ih acc1 k cfg hmemr hbad with ⟨e, he⟩
            exact ⟨e, by rw [extractParamsLoop, hstep]; exact he⟩

theorem dictSet_dictSet (d : List (String × ParamConfig)) (k : String)
    (v1 v2 : ParamConfig) :
    dictSet (dictSet d k v1) k v2 = dictSet d k v2 := by
  by_cases h : d.any (fun p => p.1 == k) = true
  · have h2 : (d.map (fun p => if p.1 == k then (k, v1) else p)).any
        (fun p => p.1 == k) = true := by
      rcases List.any_eq_true.mp h with ⟨x, hx, hxk⟩
      exact List.any_eq_true.mpr
        ⟨(k, v1), List.mem_map.mpr ⟨x, hx, by simp [hxk]⟩, by simp⟩
    have e1 : dictSet d k v1 = d.map (fun p => if p.1 == k then (k, v1) else p) := by
      rw [dictSet, if_pos h]
    have e2 : dictSet d k v2 = d.map (fun p => if p.1 == k then (k, v2) else p) := by
      rw [dictSet, if_pos h]
    rw [e1]
    rw [dictSet, if_pos h2, e2, List.map_map]
    apply List.map_congr_left
    intro p _
    by_cases hp : p.1 = k
    · simp [Function.comp_def, hp]
    · simp [Function.comp_def, hp]
  · have h2 : ((d ++ [(k, v1)]).any (fun p => p.1 == k)) = true :=
      List.any_eq_true.mpr ⟨(k, v1), by simp, by simp⟩
    have e1 : dictSet d k v1 = d ++ [(k, v1)] := by
      rw [dictSet, if_neg h]
    have e2 : dictSet d k v2 = d ++ [(k, v2)] := by
      rw [dictSet, if_neg h]
    rw [e1]
    rw [dictSet, if_pos h2, e2, List.map_append]
    have h3 : d.map (fun p => if p.1 == k then (k, v2) else p) = d := by
      have hid : ∀ p ∈ d, (if p.1 == k then (k, v2) else p) = p := by
        intro p hp
        have hn : ¬((p.1 == k) = true) :=
          fun hc => h (List.any_eq_true.mpr ⟨p, hp, hc⟩)
        simp [hn]
      calc d.map (fun p => if p.1 == k then (k, v2) else p) = d.map id :=
            List.map_congr_left hid
        _ = d := List.map_id d
    rw [h3]
    simp

/-- C1: at strict level 2, extraction keeps only parameters with a truthy
default; a required parameter without a default makes the whole extraction
of its operation fail with the `ValueError` playing the role of
`MissingDefaultError`; and at the orchestration level that error is caught,
appended to the warning log, and only the owning operation is dropped — the
sibling operations are processed from the otherwise unchanged state. -/
theorem C1_strict_level2 :
    (∀ params e2, extract_params 2 params = Except.ok e2 →
      ∀ p ∈ allParams e2, p.default.truthy = true) ∧
    (∀ params (k : String) (cfg : ParamConfig),
      (∀ kv ∈ params, validLoc kv.2 = true) → (k, cfg) ∈ params →
      cfg.required = true → cfg.default.truthy = false →
      ∃ m, extract_params 2 params = Except.error (PyError.valueError m)) ∧
    (∀ path method md rest st e, generate_params 2 md.params = Except.error e →
      methodsLoop 2 path ((method, md) :: rest) st =
        methodsLoop 2 path rest { st with logs := st.logs ++ [e] }) := by
  refine ⟨?_, ?_, ?_⟩
  · intro params e2 h p hp
    rcases (loop_ok_spec 2 params emptyExtracted e2 h).1 p hp with
      h1 | ⟨kv, _, hpe, hinc⟩
    · simp [allParams, emptyExtracted, emptyBucket] at h1
    · subst hpe
      rw [included_two] at hinc
      exact hinc
  · intro params k cfg hv hmem _ hd
    exact loop_error_strict2 params emptyExtracted k cfg hv hmem hd
  · intro path method md rest st e h
    simp [methodsLoop, h]

/-- Witness for C1: a required path parameter with no default fails level-2
extraction. -/
theorem C1_witness :
    ∃ m, extract_params 2 [("idp", ⟨"idp", some "path", true, PyVal.pynone⟩)] =
      Except.error (PyError.valueError m) :=
  C1_strict_level2.2.1 _ "idp" ⟨"idp", some "path", true, PyVal.pynone⟩
    (by decide) (by decide) rfl rfl

/-- C6: a parameter whose `in` value is missing or not one of
path/query/header/cookie makes the extraction step raise `ValueError` with
the "Not valid" message (the spec's `InvalidLocationError`); the whole
extraction of the owning operation then fails; and at the orchestration
boundary the error is logged as a warning and only that operation is
omitted, the remaining operations being processed normally. -/
theorem C6_invalid_location :
    (∀ strict_level acc k (cfg : ParamConfig), cfg.location = none →
      extractParamsStep strict_level acc (k, cfg) =
        Except.error (PyError.valueError
          ("Not valid " ++ k ++ " `in` value: None"))) ∧
    (∀ strict_level acc k (cfg : ParamConfig) l, cfg.location = some l →
      validLoc cfg = false →
      extractParamsStep strict_level acc (k, cfg) =
        Except.error (PyError.valueError
          ("Not valid " ++ k ++ " `in` value: " ++ l))) ∧
    (∀ strict_level params acc k (cfg : ParamConfig), (k, cfg) ∈ params →
      validLoc cfg = false →
      ∃ e, extractParamsLoop strict_level params acc = Except.error e) ∧
    (∀ strict_level p method md rest vars logs e,
      generate_params strict_level md.params = Except.error e →
      generate_test_cases strict_level ((p, [(method, md)]) :: rest) vars logs =
        generate_test_cases strict_level rest vars (logs ++ [e])) := by
  refine ⟨?_, ?_, ?_, ?_⟩
  · intro strict_level acc k cfg hloc
    simp [extractParamsStep, hloc]
  · intro strict_level acc k cfg l hloc hbad
    have hne : ¬(l = "query") ∧ ¬(l = "path") ∧ ¬(l = "header") ∧ ¬(l = "cookie") := by
      simp [validLoc, hloc] at hbad
      tauto
    simp [extractParamsStep, hloc, hne.1, hne.2.1, hne.2.2.1, hne.2.2.2]
  · intro strict_level params acc k cfg hmem hbad
    exact loop_error_invalid strict_level params acc k cfg hmem hbad
  · intro strict_level p method md rest vars logs e h
    simp [generate_test_cases, pathsLoop, methodsLoop, h]

/-- Witness for C6: a `body` parameter is rejected with the exact message. -/
theorem C6_witness :
    extractParamsStep 0 emptyExtracted
      ("x", ⟨"x", some "body", true, PyVal.pyint 1⟩) =
      Except.error (PyError.valueError
        ("Not valid " ++ "x" ++ " `in` value: " ++ "body")) :=
  C6_invalid_location.2.1 0 emptyExtracted "x"
    ⟨"x", some "body", true, PyVal.pyint 1⟩ "body" rfl (by decide)

/-- C7: at strict level 1 (with valid locations) extraction never fails, a
parameter is kept iff it has a truthy default or is required, kept
parameters land on the bucket side matching their `required` flag, and an
optional parameter without a default is excluded. -/
theorem C7_strict_level1 (params : List (String × ParamConfig))
    (hv : ∀ kv ∈ params, validLoc kv.2 = true) :
    (∃ e2, extract_params 1 params = Except.ok e2) ∧
    (∀ e2, extract_params 1 params = Except.ok e2 →
      (∀ kv ∈ params, (kv.2.default.truthy = true ∨ kv.2.required = true) →
        kv.2 ∈ allParams e2) ∧
      (∀ p ∈ allParams e2, p.default.truthy = true ∨ p.required = true) ∧
      (∀ p : ParamConfig, p.default.truthy = false → p.required = false →
        p ∉ allParams e2) ∧
      (∀ p ∈ requiredSide e2, p.required = true) ∧
      (∀ p ∈ optionalSide e2, p.required = false)) := by
  constructor
  · exact loop_ok_of_ne_two 1 (by omega) params emptyExtracted hv
  · intro e2 h
    have H := loop_ok_spec 1 params emptyExtracted e2 h
    have hAll : ∀ p ∈ allParams e2, p.default.truthy = true ∨ p.required = true := by
      intro p hp
      rcases H.1 p hp with h1 | ⟨kv, _, hpe, hinc⟩
      · simp [allParams, emptyExtracted, emptyBucket] at h1
      · subst hpe
        rw [included_one] at hinc
        simpa using hinc
    refine ⟨?_, hAll, ?_, ?_, ?_⟩
    · intro kv hkv hc
      apply H.2.1 kv hkv
      rw [included_one]
      rcases hc with hc | hc <;> simp [hc]
    · intro p hdp hrp hp
      rcases hAll p hp with h1 | h1
      · rw [hdp] at h1
        cases h1
      · rw [hrp] at h1
        cases h1
    · intro p hp
      rcases H.2.2.2.1 p hp with h1 | h1
      · simp [requiredSide, emptyExtracted, emptyBucket] at h1
      · exact h1
    · intro p hp
      rcases H.2.2.2.2 p hp with h1 | h1
      · simp [optionalSide, emptyExtracted, emptyBucket] at h1
      · exact h1

/-- Witness for C7: level-1 extraction succeeds on a required parameter
without default plus an optional one without default. -/
theorem C7_witness :
    ∃ e2, extract_params 1 [("a", ⟨"a", some "query", true, PyVal.pynone⟩),
      ("b", ⟨"b", some "header", false, PyVal.pynone⟩)] = Except.ok e2 :=
  (C7_strict_level1 _ (by decide)).1

/-- C9: a falsy default (0, False, "", None) is treated as no default
declared: at level 1 such a parameter is kept only when required (then
exactly as at the permissive level 0) and silently dropped otherwise; at
level 2 it raises; and in value resolution the placeholder token is
synthesized and registered instead of rendering the falsy default. -/
theorem C9_falsy_default :
    ((PyVal.pyint 0).truthy = false ∧ (PyVal.pybool false).truthy = false ∧
      (PyVal.pystr "").truthy = false ∧ PyVal.pynone.truthy = false) ∧
    (∀ acc k (cfg : ParamConfig), validLoc cfg = true → cfg.default.truthy = false →
      (cfg.required = false → extractParamsStep 1 acc (k, cfg) = Except.ok acc) ∧
      (cfg.required = true →
        extractParamsStep 1 acc (k, cfg) = extractParamsStep 0 acc (k, cfg))) ∧
    (∀ acc k (cfg : ParamConfig), validLoc cfg = true → cfg.default.truthy = false →
      ∃ m, extractParamsStep 2 acc (k, cfg) =
        Except.error (PyError.valueError m)) ∧
    (∀ test_count param_type (p : ParamConfig) rest vars, p.default.truthy = false →
      formatPairs test_count param_type (p :: rest) vars =
        (renderPair param_type p.name (p.name ++ "_test_" ++ toString test_count) ::
          (formatPairs test_count param_type rest
            (dictSet vars (p.name ++ "_test_" ++ toString test_count) p)).1,
         (formatPairs test_count param_type rest
           (dictSet vars (p.name ++ "_test_" ++ toString test_count) p)).2)) := by
  refine ⟨by decide, ?_, ?_, ?_⟩
  · intro acc k cfg hvv hd
    constructor
    · intro hr
      rcases step_cases 1 acc (k, cfg) with
        ⟨hb, _⟩ | ⟨_, hinc, _⟩ | ⟨_, _, _, hs⟩ | ⟨_, _, hlvl, _⟩
      · rw [hvv] at hb
        cases hb
      · rw [included_one] at hinc
        simp [hd, hr] at hinc
      · exact hs
      · exact absurd hlvl (by omega)
    · intro hr
      have hv2 : cfg.location = some "query" ∨ cfg.location = some "path" ∨
          cfg.location = some "header" ∨ cfg.location = some "cookie" := by
        simpa [validLoc, or_assoc] using hvv
      rcases hv2 with hloc | hloc | hloc | hloc <;>
        simp [extractParamsStep, hloc, strictAppend_eq, included, hd, hr]
  · intro acc k cfg hvv hd
    rcases step_cases 2 acc (k, cfg) with
      ⟨hb, _⟩ | ⟨_, hinc, _⟩ | ⟨_, _, hlvl, _⟩ | ⟨_, _, _, m, hs⟩
    · rw [hvv] at hb
      cases hb
    · rw [included_two] at hinc
      rw [hd] at hinc
      cases hinc
    · exact absurd rfl hlvl
    · exact ⟨m, hs⟩
  · intro test_count param_type p rest vars hd
    simp [formatPairs, hd]

/-- Witness for C9: a falsy integer default 0 on an optional parameter is
silently skipped at level 1. -/
theorem C9_witness :
    extractParamsStep 1 emptyExtracted
      ("z", ⟨"z", some "query", false, PyVal.pyint 0⟩) = Except.ok emptyExtracted :=
  (C9_falsy_default.2.1 emptyExtracted "z"
    ⟨"z", some "query", false, PyVal.pyint 0⟩ (by decide) (by decide)).1 rfl

/-- C5: value resolution uses the repr of a truthy default and otherwise
synthesizes the token `<name>_test_<seq>` and registers the parameter under
it; the token depends only on name and sequence, so two same-name parameters
of one operation share a single table entry with the last write winning; and
every registered placeholder yields the declaration line
`name = "#"  # <metadata>`. -/
theorem C5_placeholder_bookkeeping :
    (∀ test_count param_type (p : ParamConfig) rest vars, p.default.truthy = true →
      formatPairs test_count param_type (p :: rest) vars =
        (renderPair param_type p.name (pyRepr p.default) ::
          (formatPairs test_count param_type rest vars).1,
         (formatPairs test_count param_type rest vars).2)) ∧
    (∀ test_count param_type (p : ParamConfig) rest vars, p.default.truthy = false →
      (formatPairs test_count param_type (p :: rest) vars).1 =
        renderPair param_type p.name (p.name ++ "_test_" ++ toString test_count) ::
          (formatPairs test_count param_type rest
            (dictSet vars (p.name ++ "_test_" ++ toString test_count) p)).1) ∧
    (∀ d k v1 v2, dictSet (dictSet d k v1) k v2 = dictSet d k v2) ∧
    (∀ test_count param_type (p1 p2 : ParamConfig) vars,
      p1.name = p2.name → p1.default.truthy = false → p2.default.truthy = false →
      (formatPairs test_count param_type [p1, p2] vars).2 =
        dictSet vars (p2.name ++ "_test_" ++ toString test_count) p2) ∧
    (∀ k v vars, (k, v) ∈ vars →
      (k ++ " = \x22#\x22  # " ++ reprOfParamConfig v) ∈ varLines vars) := by
  refine ⟨?_, ?_, dictSet_dictSet, ?_, ?_⟩
  · intro test_count param_type p rest vars hd
    simp [formatPairs, hd]
  · intro test_count param_type p rest vars hd
    simp [formatPairs, hd]
  · intro test_count param_type p1 p2 vars hname h1 h2
    simp only [formatPairs, h1, h2, Bool.not_false, if_pos]
    rw [hname]
    exact dictSet_dictSet vars _ p1 p2
  · intro k v vars hmem
    exact List.mem_map.mpr ⟨(k, v), hmem, rfl⟩

/-- Witness for C5: two same-name no-default parameters of one operation end
in a single placeholder entry, last write winning. -/
theorem C5_witness :
    (formatPairs 0 "query" [⟨"n", some "query", false, PyVal.pynone⟩,
      ⟨"n", some "query", true, PyVal.pyint 0⟩] []).2 =
      dictSet [] ("n" ++ "_test_" ++ toString 0)
        ⟨"n", some "query", true, PyVal.pyint 0⟩ :=
  C5_placeholder_bookkeeping.2.2.2.1 0 "query"
    ⟨"n", some "query", false, PyVal.pynone⟩
    ⟨"n", some "query", true, PyVal.pyint 0⟩ [] rfl rfl rfl

/-- Counterexample for C2: a scheme type that is neither `BasicAuth` nor
`apiKey` (here `oauth2`) does not fail — the scheme is silently skipped, and
a full output script is still produced. -/
theorem C2_counterexample :
    generate_security_cases
      [("oauth2", { location := some "header", name := some "token" })] =
      Except.ok "" ∧
    ∃ out, generate_locustfile 0
      { paths := [],
        security := [("oauth2", { location := some "header", name := some "token" })],
        host := "h" } [] [] = Except.ok out :=
  ⟨rfl, ⟨_, rfl⟩⟩

/-- C2 amended: scheme types other than `BasicAuth` and `apiKey` are
silently skipped; an `apiKey` whose location is present but not `header`,
or whose name is missing or empty, fails with `ValueError` (the spec's
`UnsupportedSecuritySchemeError`); an `apiKey` missing its location fails
with `AttributeError`; and any such error is never caught inside the core:
it aborts `generate_locustfile`, so no output script is produced. -/
theorem C2_security_schemes :
    (∀ security_type (cfg : SecurityConfig) rest, security_type ≠ "BasicAuth" →
      security_type ≠ "apiKey" →
      securityCasesList ((security_type, cfg) :: rest) = securityCasesList rest) ∧
    (∀ (cfg : SecurityConfig) rest l, cfg.location = some l →
      l.toLower ≠ "header" →
      securityCasesList (("apiKey", cfg) :: rest) =
        Except.error (PyError.valueError (reprSecurityConfig cfg))) ∧
    (∀ (cfg : SecurityConfig) rest l, cfg.location = some l →
      optStrTruthy cfg.name = false →
      securityCasesList (("apiKey", cfg) :: rest) =
        Except.error (PyError.valueError (reprSecurityConfig cfg))) ∧
    (∀ (cfg : SecurityConfig) rest, cfg.location = none →
      ∃ m, securityCasesList (("apiKey", cfg) :: rest) =
        Except.error (PyError.attributeError m)) ∧
    (∀ strict_level (data : SwaggerData) vars logs e,
      generate_security_cases data.security = Except.error e →
      data.security ≠ [] →
      generate_locustfile strict_level data vars logs = Except.error e) := by
  refine ⟨?_, ?_, ?_, ?_, ?_⟩
  · intro t cfg rest h1 h2
    simp [securityCasesList, h1, h2]
  · intro cfg rest l hloc hlow
    simp [securityCasesList, hloc, hlow]
  · intro cfg rest l hloc hname
    simp [securityCasesList, hloc, hname]
  · intro cfg rest hloc
    exact ⟨"NoneType object has no attribute lower",
      by simp [securityCasesList, hloc]⟩
  · intro strict_level data vars logs e hsec hne
    cases hd : data.security with
    | nil => exact absurd hd hne
    | cons s ss =>
        rw [hd] at hsec
        simp [generate_locustfile, hd, hsec]

/-- Witness for the amended C2: an `apiKey` located in `query` fails with
`ValueError` carrying the scheme configuration. -/
theorem C2_witness :
    securityCasesList [("apiKey", { location := some "query", name := none })] =
      Except.error (PyError.valueError
        (reprSecurityConfig { location := some "query", name := none })) :=
  C2_security_schemes.2.2.1 { location := some "query", name := none } []
    "query" rfl rfl

/-- C10: an operation whose parameter extraction fails consumes no sequence
number — the loop continues with an unchanged `test_count` (only the log
grows), while a successful operation increments it by one; consequently
after a failed operation the next successful operation emits its first test
function under the failed operation's would-be sequence number. -/
theorem C10_sequence_counter :
    (∀ strict_level path method md rest st e,
      generate_params strict_level md.params = Except.error e →
      methodsLoop strict_level path ((method, md) :: rest) st =
        methodsLoop strict_level path rest { st with logs := st.logs ++ [e] }) ∧
    (∀ strict_level path method md rest st pc,
      generate_params strict_level md.params = Except.ok pc →
      (methodsLoop strict_level path ((method, md) :: rest) st).2.test_count =
        (methodsLoop strict_level path rest
          { st with
              test_count := st.test_count + 1
              vars := (emitCasesLoop method path st.test_count
                (crossProduct pc) 0 st.vars).2 }).2.test_count) ∧
    (∀ strict_level path m1 md1 m2 md2 st e pc2,
      generate_params strict_level md1.params = Except.error e →
      generate_params strict_level md2.params = Except.ok pc2 →
      ∃ a b c d,
        ((methodsLoop strict_level path [(m1, md1), (m2, md2)] st).1)[0]? =
          some (FUNC_TEMPLATE_render
            ("test_" ++ toString st.test_count ++ "_case_" ++ toString 0)
            m2 path a b c d)) := by
  refine ⟨?_, ?_, ?_⟩
  · intro strict_level path method md rest st e h
    simp [methodsLoop, h]
  · intro strict_level path method md rest st pc h
    simp [methodsLoop, h]
  · intro strict_level path m1 md1 m2 md2 st e pc2 h1 h2
    have hpos : 0 < (crossProduct pc2).length := by
      cases hx : extract_params strict_level md2.params with
      | error e2 =>
          rw [generate_params, hx] at h2
          cases h2
      | ok ex =>
          rw [generate_params, hx] at h2
          have hpc : pc2 =
              { path_params := create_params_combinations ex.path_params,
                query_params := create_params_combinations ex.query_params,
                header_params := create_params_combinations ex.header_params,
                cookie_params := create_params_combinations ex.cookie_params } :=
            (Except.ok.inj h2).symm
          rw [crossProduct_length, hpc]
          simp [create_params_combinations, createCombos_length]
    have hml : (methodsLoop strict_level path [(m1, md1), (m2, md2)] st).1 =
        (emitCasesLoop m2 path st.test_count (crossProduct pc2) 0 st.vars).1 := by
      simp [methodsLoop, h1, h2]
    obtain ⟨a, b, c, d, hh⟩ :=
      (emitCasesLoop_spec m2 path st.test_count (crossProduct pc2) 0 st.vars).2 0 hpos
    rw [hml]
    exact ⟨a, b, c, d, hh⟩

/-- Witness for C10: with a first operation whose only parameter has an
invalid location and a second parameterless operation, the second operation
is numbered 0. -/
theorem C10_witness :
    ∃ a b c d,
      ((methodsLoop 1 "/p" [("get", ⟨[("x", ⟨"x", some "body", true, PyVal.pyint 1⟩)]⟩),
        ("post", ⟨[]⟩)] ⟨0, [], []⟩).1)[0]? =
        some (FUNC_TEMPLATE_render
          ("test_" ++ toString (0 : Nat) ++ "_case_" ++ toString 0)
          "post" "/p" a b c d) :=
  C10_sequence_counter.2.2 1 "/p" "get" ⟨[("x", ⟨"x", some "body", true, PyVal.pyint 1⟩)]⟩
    "post" ⟨[]⟩ ⟨0, [], []⟩
    (PyError.valueError ("Not valid " ++ "x" ++ " `in` value: " ++ "body"))
    ⟨[[]], [[]], [[]], [[]]⟩ rfl rfl

/-! Lemmas for the determinism claim: the emitted text depends only on the
input data and `test_count`, and the variable table evolves by replaying a
fixed insertion sequence. -/

theorem formatPairs_fst_indep (test_count : Nat) (param_type : String) :
    ∀ (ps : List ParamConfig) (vars vars2 : List (String × ParamConfig)),
      (formatPairs test_count param_type ps vars).1 =
        (formatPairs test_count param_type ps vars2).1 := by
  intro ps
  induction ps with
  | nil => intro vars vars2; rfl
  | cons p rest ih =>
      intro vars vars2
      cases hd : p.default.truthy
      · simp only [formatPairs, hd, Bool.not_false, if_pos]
        exact congrArg _ (ih _ _)
      · simp only [formatPairs, hd, Bool.not_true, Bool.false_eq_true, if_false]
        exact congrArg _ (ih _ _)

theorem format_params_text_indep (raw : List ParamConfig) (test_count : Nat)
    (param_type : String) (vars vars2 : List (String × ParamConfig)) :
    (format_params raw test_count param_type vars).text =
      (format_params raw test_count param_type vars2).text := by
  simp only [format_params]
  rw [formatPairs_fst_indep test_count param_type raw vars vars2]

theorem formatPairs_snd_eq (test_count : Nat) (param_type : String) :
    ∀ (ps : List ParamConfig) (vars : List (String × ParamConfig)),
      (formatPairs test_count param_type ps vars).2 =
        dictSetAll vars (pairInsertions test_count ps) := by
  intro ps
  induction ps with
  | nil => intro vars; rfl
  | cons p rest ih =>
      intro vars
      cases hd : p.default.truthy
      · simp only [formatPairs, pairInsertions, hd, Bool.not_false, if_pos]
        rw [ih]
        rfl
      · simp only [formatPairs, pairInsertions, hd, Bool.not_true,
          Bool.false_eq_true, if_false]
        exact ih vars

theorem dictSetAll_append (xs ys : List (String × ParamConfig)) :
    ∀ d, dictSetAll d (xs ++ ys) = dictSetAll (dictSetAll d xs) ys := by
  induction xs with
  | nil => intro d; rfl
  | cons kv rest ih =>
      intro d
      obtain ⟨k, v⟩ := kv
      simp only [List.cons_append, dictSetAll]
      exact ih _

theorem emitCasesLoop_fst_eq (method path : String) (n : Nat) :
    ∀ tuples caseIdx vars,
      (emitCasesLoop method path n tuples caseIdx vars).1 =
        emitFuncs method path n tuples caseIdx := by
  intro tuples
  induction tuples with
  | nil => intro caseIdx vars; rfl
  | cons t rest ih =>
      obtain ⟨tp, tq, th2, tc⟩ := t
      intro caseIdx vars
      simp only [emitCasesLoop, emitFuncs]
      refine congrArg₂ (· :: ·) ?_ (ih _ _)
      congr 1
      all_goals exact format_params_text_indep _ _ _ _ _

theorem emitCasesLoop_snd_eq (method path : String) (n : Nat) :
    ∀ tuples caseIdx vars,
      (emitCasesLoop method path n tuples caseIdx vars).2 =
        dictSetAll vars (tupleInsertions n tuples) := by
  intro tuples
  induction tuples with
  | nil => intro caseIdx vars; rfl
  | cons t rest ih =>
      obtain ⟨tp, tq, th2, tc⟩ := t
      intro caseIdx vars
      simp only [emitCasesLoop, tupleInsertions]
      rw [ih]
      simp only [format_params, formatPairs_snd_eq, dictSetAll_append]

theorem methodsLoop_fst (strict_level : Nat) (path : String) :
    ∀ (ms : List (String × MethodData)) (st : GenSt),
      (methodsLoop strict_level path ms st).1 =
        methodsFuncs strict_level path ms st.test_count := by
  intro ms
  induction ms with
  | nil => intro st; rfl
  | cons m rest ih =>
      obtain ⟨method, md⟩ := m
      intro st
      cases hgp : generate_params strict_level md.params with
      | error e =>
          simp only [methodsLoop, methodsFuncs, hgp]
          exact ih _
      | ok pc =>
          simp only [methodsLoop, methodsFuncs, hgp]
          rw [ih, emitCasesLoop_fst_eq]

theorem methodsLoop_snd (strict_level : Nat) (path : String) :
    ∀ (ms : List (String × MethodData)) (st : GenSt),
      (methodsLoop strict_level path ms st).2 =
        ⟨st.test_count + methodsCount strict_level ms,
         dictSetAll st.vars (methodsIns strict_level ms st.test_count),
         st.logs ++ methodsWarnings strict_level ms⟩ := by
  intro ms
  induction ms with
  | nil =>
      intro st
      simp [methodsLoop, methodsCount, methodsIns, methodsWarnings, dictSetAll]
  | cons m rest ih =>
      obtain ⟨method, md⟩ := m
      intro st
      cases hgp : generate_params strict_level md.params with
      | error e =>
          simp only [methodsLoop, methodsCount, methodsIns, methodsWarnings, hgp]
          rw [ih]
          simp
      | ok pc =>
          simp only [methodsLoop, methodsCount, methodsIns, methodsWarnings, hgp]
          rw [ih]
          simp only [emitCasesLoop_snd_eq, dictSetAll_append]
          congr 1
          omega

theorem pathsLoop_fst (strict_level : Nat) :
    ∀ (pd : List (String × List (String × MethodData))) (st : GenSt),
      (pathsLoop strict_level pd st).1 = pathsFuncs strict_level pd st.test_count := by
  intro pd
  induction pd with
  | nil => intro st; rfl
  | cons p rest ih =>
      obtain ⟨path, ms⟩ := p
      intro st
      simp only [pathsLoop, pathsFuncs]
      rw [methodsLoop_fst, ih, methodsLoop_snd]

theorem pathsLoop_snd (strict_level : Nat) :
    ∀ (pd : List (String × List (String × MethodData))) (st : GenSt),
      (pathsLoop strict_level pd st).2 =
        ⟨st.test_count + pathsCount strict_level pd,
         dictSetAll st.vars (pathsIns strict_level pd st.test_count),
         st.logs ++ pathsWarnings strict_level pd⟩ := by
  intro pd
  induction pd with
  | nil =>
      intro st
      simp [pathsLoop, pathsCount, pathsIns, pathsWarnings, dictSetAll]
  | cons p rest ih =>
      obtain ⟨path, ms⟩ := p
      intro st
      simp only [pathsLoop, pathsCount, pathsIns, pathsWarnings]
      rw [ih, methodsLoop_snd]
      simp only [dictSetAll_append, List.append_assoc]
      congr 1
      omega

theorem generate_test_cases_eq (strict_level : Nat)
    (pd : List (String × List (String × MethodData)))
    (vars : List (String × ParamConfig)) (logs : List PyError) :
    generate_test_cases strict_level pd vars logs =
      (String.join (pathsFuncs strict_level pd 0),
       dictSetAll vars (pathsIns strict_level pd 0),
       logs ++ pathsWarnings strict_level pd) := by
  simp only [generate_test_cases, pathsLoop_fst, pathsLoop_snd]

/-! Lemmas about the Python-dict model, leading to idempotence of replaying
the same insertion sequence. -/

theorem hasKey_iff_mem (d : List (String × ParamConfig)) (k : String) :
    hasKey d k = true ↔ k ∈ keysOf d := by
  simp only [hasKey, keysOf, List.any_eq_true, List.mem_map, beq_iff_eq]

theorem keysOf_dictSet_pos (d : List (String × ParamConfig)) (k : String)
    (v : ParamConfig) (h : hasKey d k = true) :
    keysOf (dictSet d k v) = keysOf d := by
  rw [hasKey] at h
  rw [dictSet, if_pos h, keysOf, keysOf, List.map_map]
  apply List.map_congr_left
  intro p _
  by_cases hp : p.1 = k
  · simp [Function.comp_def, hp]
  · simp [Function.comp_def, hp]

theorem keysOf_dictSet_neg (d : List (String × ParamConfig)) (k : String)
    (v : ParamConfig) (h : hasKey d k = false) :
    keysOf (dictSet d k v) = keysOf d ++ [k] := by
  rw [hasKey] at h
  rw [dictSet, if_neg (by simp [h]), keysOf, keysOf, List.map_append]
  rfl

theorem hasKey_dictSet_self (d : List (String × ParamConfig)) (k : String)
    (v : ParamConfig) : hasKey (dictSet d k v) k = true := by
  rw [hasKey_iff_mem]
  by_cases h : hasKey d k = true
  · rw [keysOf_dictSet_pos d k v h]
    exact (hasKey_iff_mem d k).mp h
  · rw [keysOf_dictSet_neg d k v (by simpa using h)]
    simp

theorem hasKey_dictSet_of (d : List (String × ParamConfig)) (k : String)
    (v : ParamConfig) (k2 : String) (h : hasKey d k2 = true) :
    hasKey (dictSet d k v) k2 = true := by
  rw [hasKey_iff_mem] at h ⊢
  by_cases h2 : hasKey d k = true
  · rw [keysOf_dictSet_pos d k v h2]
    exact h
  · rw [keysOf_dictSet_neg d k v (by simpa using h2)]
    exact List.mem_append.mpr (Or.inl h)

theorem lookup_map_update_self (k : String) (v : ParamConfig) :
    ∀ (d : List (String × ParamConfig)), hasKey d k = true →
      lookupKey (d.map (fun p => if p.1 == k then (k, v) else p)) k = some v := by
  intro d
  induction d with
  | nil => intro h; simp [hasKey] at h
  | cons p t ih =>
      intro h
      by_cases hp : p.1 = k
      · simp only [List.map_cons]
        rw [if_pos (by simp [hp])]
        rw [lookupKey, if_pos (by simp)]
      · have ht : hasKey t k = true := by
          simp [hasKey, List.any_cons, hp] at h
          simpa [hasKey, List.any_eq_true] using h
        simp only [List.map_cons]
        rw [if_neg (by simp [hp])]
        rw [lookupKey, if_neg (by simp [hp])]
        exact ih ht

theorem lookup_append_single_self (k : String) (v : ParamConfig) :
    ∀ (d : List (String × ParamConfig)), hasKey d k = false →
      lookupKey (d ++ [(k, v)]) k = some v := by
  intro d
  induction d with
  | nil => intro _; simp [lookupKey]
  | cons p t ih =>
      intro h
      have hp : ¬(p.1 = k) := by
        simp [hasKey, List.any_cons] at h
        exact h.1
      have ht : hasKey t k = false := by
        simp [hasKey, List.any_cons] at h
        simpa [hasKey] using h.2
      rw [List.cons_append, lookupKey, if_neg (by simp [hp])]
      exact ih ht

theorem lookupKey_dictSet_self (d : List (String × ParamConfig)) (k : String)
    (v : ParamConfig) : lookupKey (dictSet d k v) k = some v := by
  by_cases h : hasKey d k = true
  · rw [dictSet, if_pos (show (d.any fun p => p.1 == k) = true from h)]
    exact lookup_map_update_self k v d h
  · rw [dictSet,
      if_neg (show ¬((d.any fun p => p.1 == k) = true) from by simpa [hasKey] using h)]
    exact lookup_append_single_self k v d (by simpa using h)

theorem lookup_map_update_other (k k2 : String) (v : ParamConfig)
    (hne : k2 ≠ k) :
    ∀ (d : List (String × ParamConfig)),
      lookupKey (d.map (fun p => if p.1 == k then (k, v) else p)) k2 =
        lookupKey d k2 := by
  intro d
  induction d with
  | nil => rfl
  | cons p t ih =>
      by_cases hp : p.1 = k
      · simp only [List.map_cons]
        rw [if_pos (by simp [hp])]
        rw [lookupKey, lookupKey, if_neg (by simpa using Ne.symm hne),
          if_neg (by simp only [beq_iff_eq]; exact fun hc => hne ((hp.symm.trans hc).symm))]
        exact ih
      · simp only [List.map_cons]
        rw [if_neg (by simp [hp])]
        rw [lookupKey, lookupKey]
        by_cases hp2 : p.1 = k2
        · rw [if_pos (by simp [hp2]), if_pos (by simp [hp2])]
        · rw [if_neg (by simp [hp2]), if_neg (by simp [hp2])]
          exact ih

theorem lookup_append_single_other (k k2 : String) (v : ParamConfig)
    (hne : k2 ≠ k) :
    ∀ (d : List (String × ParamConfig)),
      lookupKey (d ++ [(k, v)]) k2 = lookupKey d k2 := by
  intro d
  induction d with
  | nil => simp [lookupKey, if_neg (by simpa using Ne.symm hne)]
  | cons p t ih =>
      rw [List.cons_append, lookupKey, lookupKey]
      by_cases hp2 : p.1 = k2
      · rw [if_pos (by simp [hp2]), if_pos (by simp [hp2])]
      · rw [if_neg (by simp [hp2]), if_neg (by simp [hp2])]
        exact ih

theorem lookupKey_dictSet_other (d : List (String × ParamConfig))
    (k k2 : String) (v : ParamConfig) (hne : k2 ≠ k) :
    lookupKey (dictSet d k v) k2 = lookupKey d k2 := by
  by_cases h : hasKey d k = true
  · rw [dictSet, if_pos (show (d.any fun p => p.1 == k) = true from h)]
    exact lookup_map_update_other k k2 v hne d
  · rw [dictSet,
      if_neg (show ¬((d.any fun p => p.1 == k) = true) from by simpa [hasKey] using h)]
    exact lookup_append_single_other k k2 v hne d

theorem lookupKey_eq_none :
    ∀ (d : List (String × ParamConfig)) (k : String),
      k ∉ keysOf d → lookupKey d k = none := by
  intro d
  induction d with
  | nil => intro k _; rfl
  | cons p t ih =>
      intro k h
      simp only [keysOf, List.map_cons, List.mem_cons, not_or] at h
      rw [lookupKey, if_neg (by simp only [beq_iff_eq]; exact fun hc => h.1 hc.symm)]
      exact ih k (by simpa [keysOf] using h.2)

theorem nodup_keysOf_dictSet (d : List (String × ParamConfig)) (k : String)
    (v : ParamConfig) (h : (keysOf d).Nodup) :
    (keysOf (dictSet d k v)).Nodup := by
  by_cases h2 : hasKey d k = true
  · rwa [keysOf_dictSet_pos d k v h2]
  · rw [keysOf_dictSet_neg d k v (by simpa using h2)]
    have hnm : k ∉ keysOf d :=
      fun hm => absurd ((hasKey_iff_mem d k).mpr hm) h2
    simp [List.nodup_append, h, hnm]

theorem assoc_ext :
    ∀ (d1 d2 : List (String × ParamConfig)),
      keysOf d1 = keysOf d2 → (keysOf d1).Nodup →
      (∀ k, lookupKey d1 k = lookupKey d2 k) → d1 = d2 := by
  intro d1
  induction d1 with
  | nil =>
      intro d2 hk _ _
      cases d2 with
      | nil => rfl
      | cons p t => simp [keysOf] at hk
  | cons p1 t1 ih =>
      obtain ⟨k1, v1⟩ := p1
      intro d2 hk hnd hl
      cases d2 with
      | nil => simp [keysOf] at hk
      | cons p2 t2 =>
          obtain ⟨k2, v2⟩ := p2
          have e1 : keysOf ((k1, v1) :: t1) = k1 :: keysOf t1 := rfl
          have e2 : keysOf ((k2, v2) :: t2) = k2 :: keysOf t2 := rfl
          rw [e1, e2] at hk
          injection hk with hk12 hkt
          subst hk12
          rw [e1, List.nodup_cons] at hnd
          have hv : v1 = v2 := by
            have h1 := hl k1
            rw [lookupKey, if_pos (by simp), lookupKey, if_pos (by simp)] at h1
            exact Option.some_inj.mp h1
          subst hv
          have hk2n : k1 ∉ keysOf t2 := hkt ▸ hnd.1
          have hlt : ∀ k, lookupKey t1 k = lookupKey t2 k := by
            intro k
            by_cases hkk : k = k1
            · subst hkk
              rw [lookupKey_eq_none t1 k hnd.1, lookupKey_eq_none t2 k hk2n]
            · have h1 := hl k
              rw [lookupKey,
                if_neg (by simp only [beq_iff_eq]; exact fun hc => hkk hc.symm),
                lookupKey,
                if_neg (by simp only [beq_iff_eq]; exact fun hc => hkk hc.symm)] at h1
              exact h1
          rw [ih t2 hkt hnd.2 hlt]

theorem hasKey_dictSetAll_of :
    ∀ (ins d : List (String × ParamConfig)) (k : String),
      hasKey d k = true → hasKey (dictSetAll d ins) k = true := by
  intro ins
  induction ins with
  | nil => intro d k h; exact h
  | cons kv rest ih =>
      obtain ⟨k0, v0⟩ := kv
      intro d k h
      exact ih _ k (hasKey_dictSet_of d k0 v0 k h)

theorem hasKey_dictSetAll_mem :
    ∀ (ins d : List (String × ParamConfig)) (k : String) (v : ParamConfig),
      (k, v) ∈ ins → hasKey (dictSetAll d ins) k = true := by
  intro ins
  induction ins with
  | nil => intro d k v h; cases h
  | cons kv rest ih =>
      obtain ⟨k0, v0⟩ := kv
      intro d k v h
      rcases List.mem_cons.mp h with heq | hr
      · injection heq with h1 h2
        subst h1
        exact hasKey_dictSetAll_of rest _ k (hasKey_dictSet_self d k v0)
      · exact ih _ k v hr

theorem keysOf_dictSetAll_of :
    ∀ (ins d : List (String × ParamConfig)),
      (∀ kv ∈ ins, hasKey d kv.1 = true) →
      keysOf (dictSetAll d ins) = keysOf d := by
  intro ins
  induction ins with
  | nil => intro d _; rfl
  | cons kv rest ih =>
      obtain ⟨k0, v0⟩ := kv
      intro d h
      have h0 : hasKey d k0 = true := h (k0, v0) (List.mem_cons_self _ _)
      rw [dictSetAll,
        ih (dictSet d k0 v0) (fun kv hkv =>
          hasKey_dictSet_of d k0 v0 kv.1 (h kv (List.mem_cons_of_mem _ hkv))),
        keysOf_dictSet_pos d k0 v0 h0]

theorem nodup_keysOf_dictSetAll :
    ∀ (ins d : List (String × ParamConfig)),
      (keysOf d).Nodup → (keysOf (dictSetAll d ins)).Nodup := by
  intro ins
  induction ins with
  | nil => intro d h; exact h
  | cons kv rest ih =>
      obtain ⟨k0, v0⟩ := kv
      intro d h
      exact ih _ (nodup_keysOf_dictSet d k0 v0 h)

theorem lookupKey_dictSetAll :
    ∀ (ins d : List (String × ParamConfig)) (k : String),
      lookupKey (dictSetAll d ins) k =
        (match lookupLast ins k with
         | some w => some w
         | none => lookupKey d k) := by
  intro ins
  induction ins with
  | nil => intro d k; rfl
  | cons kv rest ih =>
      obtain ⟨k0, v0⟩ := kv
      intro d k
      rw [dictSetAll, ih]
      cases hll : lookupLast rest k with
      | some w => simp [lookupLast, hll]
      | none =>
          simp only [lookupLast, hll]
          by_cases hk : k0 = k
          · subst hk
            rw [lookupKey_dictSet_self]
            simp
          · rw [lookupKey_dictSet_other d k0 k v0 (fun hc => hk hc.symm)]
            simp [hk]

theorem dictSetAll_idem (d ins : List (String × ParamConfig))
    (h : (keysOf d).Nodup) :
    dictSetAll (dictSetAll d ins) ins = dictSetAll d ins := by
  apply assoc_ext
  · exact keysOf_dictSetAll_of ins (dictSetAll d ins)
      (fun kv hkv => hasKey_dictSetAll_mem ins d kv.1 kv.2 hkv)
  · exact nodup_keysOf_dictSetAll ins (dictSetAll d ins)
      (nodup_keysOf_dictSetAll ins d h)
  · intro k
    rw [lookupKey_dictSetAll]
    cases hll : lookupLast ins k with
    | none => simp only [hll]
    | some w =>
        simp only [hll]
        rw [lookupKey_dictSetAll]
        simp only [hll]

/-- C8: generation is deterministic — the emitted test-function text does not
depend on any pre-existing generator state (variable table or log), and a
second `generate_locustfile` run on the same input and strict level, even
one reusing the variable table and log produced by a first run from the
fresh state, yields the byte-identical script and the same variable table;
a failing (security-error) run likewise reproduces the same error
regardless of state. -/
theorem C8_determinism :
    (∀ strict_level pd (vars : List (String × ParamConfig)) (logs : List PyError)
      (vars2 : List (String × ParamConfig)) (logs2 : List PyError),
      (generate_test_cases strict_level pd vars logs).1 =
        (generate_test_cases strict_level pd vars2 logs2).1) ∧
    (∀ strict_level (data : SwaggerData) out v1 l1,
      generate_locustfile strict_level data [] [] = Except.ok (out, v1, l1) →
      ∃ l2, generate_locustfile strict_level data v1 l1 = Except.ok (out, v1, l2)) ∧
    (∀ strict_level (data : SwaggerData)
      (vars : List (String × ParamConfig)) (logs : List PyError)
      (vars2 : List (String × ParamConfig)) (logs2 : List PyError) e,
      generate_locustfile strict_level data vars logs = Except.error e →
      generate_locustfile strict_level data vars2 logs2 = Except.error e) := by
  refine ⟨?_, ?_, ?_⟩
  · intro strict_level pd vars logs vars2 logs2
    rw [generate_test_cases_eq, generate_test_cases_eq]
  · intro strict_level data out v1 l1 h
    have hid := dictSetAll_idem [] (pathsIns strict_level data.paths 0)
      (by simp [keysOf])
    cases hsd : data.security with
    | nil =>
        simp only [generate_locustfile, generate_test_cases_eq, hsd,
          List.isEmpty_nil, if_true, Except.ok.injEq, Prod.mk.injEq] at h ⊢
        obtain ⟨h1, h2, h3⟩ := h
        subst h1 h2 h3
        rw [hid]
        exact ⟨_, rfl, rfl, rfl⟩
    | cons s ss =>
        simp only [generate_locustfile, generate_test_cases_eq, hsd,
          List.isEmpty_cons, Bool.false_eq_true, if_false] at h ⊢
        cases hsec : generate_security_cases (s :: ss) with
        | error e2 =>
            rw [hsec] at h
            exact Except.noConfusion h
        | ok sc =>
            rw [hsec] at h
            simp only [Except.ok.injEq, Prod.mk.injEq] at h ⊢
            obtain ⟨h1, h2, h3⟩ := h
            subst h1 h2 h3
            rw [hid]
            exact ⟨_, rfl, rfl, rfl⟩
  · intro strict_level data vars logs vars2 logs2 e h
    cases hsd : data.security with
    | nil =>
        simp only [generate_locustfile, hsd, List.isEmpty_nil, if_true] at h
        exact Except.noConfusion h
    | cons s ss =>
        simp only [generate_locustfile, hsd, List.isEmpty_cons,
          Bool.false_eq_true, if_false] at h ⊢
        cases hsec : generate_security_cases (s :: ss) with
        | error e2 =>
            rw [hsec] at h
            exact h
        | ok sc =>
            rw [hsec] at h
            exact Except.noConfusion h

/-- Witness for C8: rerunning generation on the state left by a fresh run
reproduces the identical output. -/
theorem C8_witness :
    ∃ l2, generate_locustfile 1 ⟨[], [], "h"⟩ [] [] =
      Except.ok (generate_code_from_template (String.join []) none "h" [], [], l2) :=
  C8_determinism.2.1 1 ⟨[], [], "h"⟩
    (generate_code_from_template (String.join []) none "h" []) [] [] rfl

end Swagger2Locust
